import Mathlib

/-!
The n-body simulation: a shallow embedding of `src/main.c`

The C program keeps every body in parallel arrays (`masses`, `speed`, `acc`)
and two position arrays `pos` / `pos2` used as a double buffer.  Worker threads
run `update_positions` on an index interval `[from, to]`.

Modelling choices.

* `float` values are elements of an arbitrary linearly ordered field `F`
  (exact arithmetic); every computation can be run at `F = ℚ`.  The kernel in
  `float` arithmetic, `update_positions_float`, rounds the result of every
  operation to 24 significant bits (`float32`).
* A C array is a total map `Nat → _` from indices to cells.
* The two `Vector2 *` position pointers of `thread_args_t` are names of one of
  the two position arrays (`Buffer.pos`, `Buffer.pos2`), so that a call whose
  read and write buffers alias is expressible.  The `masses`, `speed` and `acc`
  pointers are always the arrays of `main` and are not indirected.
* Two consecutive C statements that do the same thing to the `.x` and to the
  `.y` component of one cell are one store of a `Vector2`.
* `int` / `size_t` indices are natural numbers.  `update_positions` is the
  loops of the worker for given bounds; `update_positions_entry` is the worker
  from its entry, where line 40 loads the `size_t` fields into `int` variables,
  which changes nothing below `2 ^ 31`.
* The `size_t` arithmetic that fills `sections` is taken modulo `2 ^ 64`.
  `sections` holds the bounds as exact integers; `sections_float` holds them as
  they are stored, in `float` cells, which changes nothing up to `2 ^ 24`.
  `step_args` builds the argument records of a step from the stored bounds.
* The workers of a step are run one after the other; `step_order_independent`
  shows for which configurations the order does not matter.
* `REFERENCE_update_positions` calls functions of raymath; they are embedded by
  what raymath computes, and the library square root is a parameter `sqrtf`.
* Three instrumented variants follow the same source lines as the plain ones:
  `update_positions_counted` counts the stores to each cell of the position
  arrays (its store is `Memory.store_counted`), `update_positions_checked`
  guards the division of line 65, and `main_loop_steps` records the read and
  write buffers of every step run.  `draw_reads` lists the cells the drawing
  code of lines 239-243 reads.
-/

namespace NBody

/-- The raylib pair `Vector2`, over the scalar type `F`. -/
structure Vector2 (F : Type) where
  x : F
  y : F
deriving DecidableEq, Repr

/-- The constant `CONST_G` (`0.01f`). -/
def CONST_G {F : Type} [LinearOrderedField F] : F := 1 / 100

/-- The literal `0.9990` by which a speed is scaled on a close encounter. -/
def DAMPING {F : Type} [LinearOrderedField F] : F := 999 / 1000

/-- The two position arrays allocated by `main`. -/
inductive Buffer where
  | pos
  | pos2
deriving DecidableEq, Repr

/-- The arrays allocated by `main`. -/
structure Memory (F : Type) where
  pos : Nat → Vector2 F
  pos2 : Nat → Vector2 F
  masses : Nat → F
  speed : Nat → Vector2 F
  acc : Nat → Vector2 F

/-- Reading cell `i` through a position pointer. -/
def Memory.load {F : Type} (m : Memory F) (b : Buffer) (i : Nat) : Vector2 F :=
  match b with
  | Buffer.pos => m.pos i
  | Buffer.pos2 => m.pos2 i

/-- Writing cell `i` through a position pointer. -/
def Memory.store {F : Type} (m : Memory F) (b : Buffer) (i : Nat) (v : Vector2 F) :
    Memory F :=
  match b with
  | Buffer.pos => { m with pos := Function.update m.pos i v }
  | Buffer.pos2 => { m with pos2 := Function.update m.pos2 i v }

/-- The record `struct thread_args_t`; `from_` and `to_` are its fields `from`
and `to`. -/
structure thread_args_t where
  from_ : Nat
  to_ : Nat
  total : Nat
  new_positions : Buffer
  positions : Buffer
deriving DecidableEq, Repr

/-- One pass through the body of the inner loop of `update_positions`
(lines 49-70), for the pair `(i, j)`; `current_x`, `current_y` were loaded
before the loop. -/
def inner_body {F : Type} [LinearOrderedField F] (a : thread_args_t) (i : Nat)
    (current_x current_y : F) (m : Memory F) (j : Nat) : Memory F :=
  if i = j then m
  else
    let other_x := (m.load a.new_positions j).x
    let other_y := (m.load a.new_positions j).y
    let d_x := (current_x - other_x) * (current_x - other_x)
    let d_y := (current_y - other_y) * (current_y - other_y)
    let d := d_x + d_y
    let m1 : Memory F :=
      if d < 1 then
        { m with
          speed := Function.update m.speed i
            ⟨(m.speed i).x * DAMPING, (m.speed i).y * DAMPING⟩ }
      else m
    let d := if d < 1 then 1 else d
    let g := (CONST_G * m1.masses j) / d
    let dir_x := other_x - current_x
    let dir_y := other_y - current_y
    { m1 with
      acc := Function.update m1.acc i
        ⟨(m1.acc i).x + dir_x * g, (m1.acc i).y + dir_y * g⟩ }

/-- One pass through the body of the outer loop of `update_positions`
(lines 43-76), for the index `i`. -/
def outer_body {F : Type} [LinearOrderedField F] (a : thread_args_t) (m : Memory F)
    (i : Nat) : Memory F :=
  let m0 : Memory F := { m with acc := Function.update m.acc i ⟨0, 0⟩ }
  let current_x := (m0.load a.new_positions i).x
  let current_y := (m0.load a.new_positions i).y
  let m1 := (List.range a.total).foldl (inner_body a i current_x current_y) m0
  let m2 : Memory F :=
    { m1 with
      speed := Function.update m1.speed i
        ⟨(m1.speed i).x + (m1.acc i).x, (m1.speed i).y + (m1.acc i).y⟩ }
  m2.store a.positions i ⟨current_x + (m2.speed i).x, current_y + (m2.speed i).y⟩

/-- The loops of the worker `update_positions` (lines 42-77), the outer one being
`for (i = from; i <= to; i++)`, for the loop bounds `from_`, `to_` and `total`
of `a`.  It is the whole function when the three fields are below `2 ^ 31`,
where line 40 changes nothing; `update_positions_entry` is the function on an
arbitrary record. -/
def update_positions {F : Type} [LinearOrderedField F] (a : thread_args_t)
    (m : Memory F) : Memory F :=
  (List.range' a.from_ (a.to_ + 1 - a.from_)).foldl (outer_body a) m

/-- The loop of `main` that fills `sections` (lines 144-147): `i` is a `size_t`,
so both products and the subtraction are taken modulo `2 ^ 64`. -/
def sections_loop (nb_bodies nb_threads : Nat) : List (Vector2 Int) :=
  (List.range nb_threads).map fun i =>
    { x := ((i * (nb_bodies / nb_threads) % 2 ^ 64 : Nat) : Int),
      y := ((((i + 1) * (nb_bodies / nb_threads) % 2 ^ 64 + (2 ^ 64 - 1)) % 2 ^ 64 : Nat) : Int) }

/-- The array `sections` after line 149.  With `nb_threads = 0` the store
`sections[nb_threads - 1].y` is outside the allocation: no result. -/
def sections (nb_bodies nb_threads : Nat) : Option (List (Vector2 Int)) :=
  let s := sections_loop nb_bodies nb_threads
  if nb_threads = 0 then none
  else
    match s[nb_threads - 1]? with
    | some v => some (s.set (nb_threads - 1) { x := v.x, y := (nb_bodies : Int) - 1 })
    | none => none

/-- The number of low bits a natural number loses when it is cut to 24
significant bits: the least `k` with `n / 2 ^ k < 2 ^ 24` (`fuel` bounds the
search and is enough from `fuel = n` on). -/
def float_shift : Nat → Nat → Nat
  | 0, _ => 0
  | fuel + 1, n => if n < 2 ^ 24 then 0 else float_shift fuel (n / 2) + 1

/-- The conversion of a natural number to `float`: the nearest number with 24
significant bits, ties to the even one. -/
def float_of_nat (n : Nat) : Nat :=
  if n ≤ 2 ^ 24 then n
  else
    let k := float_shift n n
    let q := n / 2 ^ k
    let r := n % 2 ^ k
    if 2 * r < 2 ^ k then q * 2 ^ k
    else if 2 ^ k < 2 * r then (q + 1) * 2 ^ k
    else if q % 2 = 0 then q * 2 ^ k
    else (q + 1) * 2 ^ k

/-- The conversion of an integer to `float`. -/
def float_of_int (z : Int) : Int :=
  if 0 ≤ z then (float_of_nat z.toNat : Int) else -(float_of_nat (-z).toNat : Int)

/-- The array `sections` as it is stored: its cells are `float`s (line 143), so
every bound that `sections` computes is converted to `float` by the
assignment. -/
def sections_float (nb_bodies nb_threads : Nat) : Option (List (Vector2 Int)) :=
  (sections nb_bodies nb_threads).map
    (List.map fun v => { x := float_of_int v.x, y := float_of_int v.y })

/-- Both bounds of a stored interval can be converted from `float` to `size_t`
(lines 219-220): they are between `0` and `2 ^ 64 - 1`. -/
def convertible (v : Vector2 Int) : Bool :=
  decide (0 ≤ v.x ∧ v.x < 2 ^ 64 ∧ 0 ≤ v.y ∧ v.y < 2 ^ 64)

variable {F : Type} [LinearOrderedField F]

/-- The argument record `main` fills for one worker (lines 219-228) from its
entry of `sections`; the `float` bounds are converted to `size_t`.  The
conversion is the identity on the integers from `0` to `2 ^ 64 - 1` and is not
defined elsewhere: `step_args` builds no record from an entry outside that
range. -/
def worker_args (nb_bodies : Nat) (drawn_buffer updated_buffer : Buffer) (s : Vector2 Int) :
    thread_args_t :=
  { from_ := s.x.toNat
    to_ := s.y.toNat
    total := nb_bodies
    new_positions := drawn_buffer
    positions := updated_buffer }

/-- The argument records of one step, one per entry of the stored `sections`
(the loop of lines 217-230).  No result when a bound cannot be converted to
`size_t`. -/
def step_args (nb_bodies nb_threads : Nat) (drawn_buffer updated_buffer : Buffer) :
    Option (List thread_args_t) :=
  match sections_float nb_bodies nb_threads with
  | none => none
  | some s =>
    if s.all convertible then
      some (s.map (worker_args nb_bodies drawn_buffer updated_buffer))
    else none

/-- The workers of a list of argument records, run one after the other. -/
def run_workers (l : List thread_args_t) (m : Memory F) : Memory F :=
  l.foldl (fun m a => update_positions a m) m

/-- The conversion of a `size_t` to `int` (line 40): the value modulo `2 ^ 32`,
read as a two's complement number. -/
def int_of_size_t (n : Nat) : Int :=
  if n % 2 ^ 32 < 2 ^ 31 then ((n % 2 ^ 32 : Nat) : Int)
  else ((n % 2 ^ 32 : Nat) : Int) - 2 ^ 32

/-- The conversion of an `int` to `size_t`, made where the loop headers compare
a `size_t` counter with an `int` variable (lines 42 and 48): the value modulo
`2 ^ 64`. -/
def size_t_of_int (z : Int) : Nat := (z % 2 ^ 64).toNat

/-- The function `update_positions` from its entry, on an arbitrary argument
record: line 40 loads the `size_t` fields `from`, `to`, `total` into `int`
variables, then the loops run with these.  No result when `to` is loaded as
`-1`: `i <= to` then holds for every `size_t` and the outer loop never ends. -/
def update_positions_entry (a : thread_args_t) (m : Memory F) : Option (Memory F) :=
  let from_ := size_t_of_int (int_of_size_t a.from_)
  let to_ := size_t_of_int (int_of_size_t a.to_)
  let total := size_t_of_int (int_of_size_t a.total)
  if to_ = 2 ^ 64 - 1 then none
  else some (update_positions { a with from_ := from_, to_ := to_, total := total } m)

/-- The workers of a list of argument records, each run from its entry, one
after the other. -/
def run_workers_entry (l : List thread_args_t) (m : Memory F) : Option (Memory F) :=
  l.foldlM (fun m a => update_positions_entry a m) m

/-- The variables of `main` that its loop reads and writes. -/
structure main_state (F : Type) where
  running : Bool
  buffer_frame : Bool
  drawn_buffer : Buffer
  updated_buffer : Buffer
  mem : Memory F

/-- One pass through the body of the `while` loop of `main` (lines 206-253);
`key_space` is the answer of `IsKeyPressed(KEY_SPACE)` and `secs` the contents
of `sections`.  The workers created at line 229 and joined at line 249 are run
one after the other, in the order of their creation. -/
def main_loop_body (nb_bodies : Nat) (secs : List (Vector2 Int)) (key_space : Bool)
    (s : main_state F) : main_state F :=
  let running := if key_space then !s.running else s.running
  if running then
    let drawn_buffer := if s.buffer_frame then Buffer.pos2 else Buffer.pos
    let updated_buffer := if s.buffer_frame then Buffer.pos else Buffer.pos2
    let mem := run_workers (secs.map (worker_args nb_bodies drawn_buffer updated_buffer)) s.mem
    { running := running
      buffer_frame := !s.buffer_frame
      drawn_buffer := drawn_buffer
      updated_buffer := updated_buffer
      mem := mem }
  else { s with running := running }

/-- Successive passes through the loop body, one per entry of `keys`. -/
def main_loop (nb_bodies : Nat) (secs : List (Vector2 Int)) :
    List Bool → main_state F → main_state F
  | [], s => s
  | key_space :: keys, s => main_loop nb_bodies secs keys (main_loop_body nb_bodies secs key_space s)

/-- The buffer the next step reads: the one the last step wrote. -/
def main_state.front (s : main_state F) : Buffer :=
  if s.buffer_frame then Buffer.pos2 else Buffer.pos

/-- A store through a position pointer that also counts it: the counter of the
cell `i` of the array `b` goes up by one. -/
def Memory.store_counted (mc : Memory F × (Buffer → Nat → Nat)) (b : Buffer) (i : Nat)
    (v : Vector2 F) : Memory F × (Buffer → Nat → Nat) :=
  (mc.1.store b i v, fun b' j => if b' = b ∧ j = i then mc.2 b' j + 1 else mc.2 b' j)

/-- The body of the outer loop of `update_positions` (lines 43-76) with a
counter of the assignments to the cells of the position arrays: the store of
lines 75-76 is the counted one. -/
def outer_body_counted (a : thread_args_t) (mc : Memory F × (Buffer → Nat → Nat)) (i : Nat) :
    Memory F × (Buffer → Nat → Nat) :=
  let m := mc.1
  let m0 : Memory F := { m with acc := Function.update m.acc i ⟨0, 0⟩ }
  let current_x := (m0.load a.new_positions i).x
  let current_y := (m0.load a.new_positions i).y
  let m1 := (List.range a.total).foldl (inner_body a i current_x current_y) m0
  let m2 : Memory F :=
    { m1 with
      speed := Function.update m1.speed i
        ⟨(m1.speed i).x + (m1.acc i).x, (m1.speed i).y + (m1.acc i).y⟩ }
  Memory.store_counted (m2, mc.2) a.positions i
    ⟨current_x + (m2.speed i).x, current_y + (m2.speed i).y⟩

/-- The loops of the worker `update_positions` with the write counter. -/
def update_positions_counted (a : thread_args_t) (mc : Memory F × (Buffer → Nat → Nat)) :
    Memory F × (Buffer → Nat → Nat) :=
  (List.range' a.from_ (a.to_ + 1 - a.from_)).foldl (outer_body_counted a) mc

/-- The workers of a list of argument records with the write counter. -/
def run_workers_counted (l : List thread_args_t) (mc : Memory F × (Buffer → Nat → Nat)) :
    Memory F × (Buffer → Nat → Nat) :=
  l.foldl (fun mc a => update_positions_counted a mc) mc

/-- The variables of `main` when its loop is entered (lines 130, 135, 157-158),
over the arrays `m` that the initialisation has filled. -/
def main_init (m : Memory F) : main_state F :=
  { running := false
    buffer_frame := false
    drawn_buffer := Buffer.pos
    updated_buffer := Buffer.pos2
    mem := m }

/-- The value of `running` that lines 212 and 247 test in one pass through the
loop body: whether a step runs in this pass. -/
def step_runs (key_space : Bool) (s : main_state F) : Bool :=
  if key_space then !s.running else s.running

/-- The buffer a step writes when the flag is `buffer_frame` (line 215). -/
def main_state.back (s : main_state F) : Buffer :=
  if s.buffer_frame then Buffer.pos else Buffer.pos2

/-- The cells the drawing code reads in one pass (lines 239-243): `pos[0]` for
the heavy body, then `drawn_buffer[i]` for `1 ≤ i < nb_bodies`. -/
def draw_reads (nb_bodies : Nat) (drawn_buffer : Buffer) : List (Buffer × Nat) :=
  (Buffer.pos, 0) :: (List.range' 1 (nb_bodies - 1)).map (fun i => (drawn_buffer, i))

/-- The pair (read buffer, write buffer) of every step run during successive
passes through the loop body, oldest first. -/
def main_loop_steps (nb_bodies : Nat) (secs : List (Vector2 Int)) :
    List Bool → main_state F → List (Buffer × Buffer)
  | [], _ => []
  | key_space :: keys, s =>
    (if step_runs key_space s then
      [((main_loop_body nb_bodies secs key_space s).drawn_buffer,
        (main_loop_body nb_bodies secs key_space s).updated_buffer)]
    else []) ++
      main_loop_steps nb_bodies secs keys (main_loop_body nb_bodies secs key_space s)

/-- The raymath function `Vector2Zero`. -/
def Vector2Zero : Vector2 F := ⟨0, 0⟩

/-- The raymath function `Vector2Add`: componentwise sum. -/
def Vector2Add (v1 v2 : Vector2 F) : Vector2 F := ⟨v1.x + v2.x, v1.y + v2.y⟩

/-- The raymath function `Vector2Subtract`: componentwise difference. -/
def Vector2Subtract (v1 v2 : Vector2 F) : Vector2 F := ⟨v1.x - v2.x, v1.y - v2.y⟩

/-- The raymath function `Vector2Scale`: both components times `scale`. -/
def Vector2Scale (v : Vector2 F) (scale : F) : Vector2 F := ⟨v.x * scale, v.y * scale⟩

/-- The raymath function `Vector2Distance`: the square root, computed by the
library function `sqrtf` taken as a parameter, of the squared distance. -/
def Vector2Distance (sqrtf : F → F) (v1 v2 : Vector2 F) : F :=
  sqrtf ((v1.x - v2.x) * (v1.x - v2.x) + (v1.y - v2.y) * (v1.y - v2.y))

/-- One pass through the body of the inner loop of `REFERENCE_update_positions`
(lines 93-111), for the pair `(i, j)`. -/
def REFERENCE_inner_body (sqrtf : F → F) (a : thread_args_t) (i : Nat) (m : Memory F)
    (j : Nat) : Memory F :=
  if i = j then m
  else
    let d := Vector2Distance sqrtf (m.load a.new_positions i) (m.load a.new_positions j)
    let m1 : Memory F :=
      if d < 1 then
        { m with speed := Function.update m.speed i (Vector2Scale (m.speed i) DAMPING) }
      else m
    let d := if d < 1 then 1 else d
    let dir := Vector2Subtract (m1.load a.new_positions j) (m1.load a.new_positions i)
    let final := Vector2Scale dir ((CONST_G * m1.masses j) / (d * d))
    { m1 with acc := Function.update m1.acc i (Vector2Add (m1.acc i) final) }

/-- One pass through the body of the outer loop of `REFERENCE_update_positions`
(lines 89-114), for the index `i`. -/
def REFERENCE_outer_body (sqrtf : F → F) (a : thread_args_t) (m : Memory F) (i : Nat) :
    Memory F :=
  let m0 : Memory F := { m with acc := Function.update m.acc i Vector2Zero }
  let m1 := (List.range a.total).foldl (REFERENCE_inner_body sqrtf a i) m0
  let m2 : Memory F :=
    { m1 with speed := Function.update m1.speed i (Vector2Add (m1.speed i) (m1.acc i)) }
  m2.store a.positions i (Vector2Add (m2.load a.new_positions i) (m2.speed i))

/-- The function `REFERENCE_update_positions` (lines 81-116).  Its loops run on
the `size_t` fields of the record themselves, with no `int` variables as in
line 40 of `update_positions`; the outer loop ends when `to_` is below
`2 ^ 64 - 1`. -/
def REFERENCE_update_positions (sqrtf : F → F) (a : thread_args_t) (m : Memory F) :
    Memory F :=
  (List.range' a.from_ (a.to_ + 1 - a.from_)).foldl (REFERENCE_outer_body sqrtf a) m

/-- A division that fails when its divisor does not pass the test `ok`. -/
def checked_div (ok : F → Bool) (x d : F) : Option F :=
  if ok d then some (x / d) else none

/-- The body of the inner loop of `update_positions` (lines 49-70) with the
division of line 65 guarded by `ok`. -/
def inner_body_checked (ok : F → Bool) (a : thread_args_t) (i : Nat)
    (current_x current_y : F) (m : Memory F) (j : Nat) : Option (Memory F) :=
  if i = j then some m
  else
    let other_x := (m.load a.new_positions j).x
    let other_y := (m.load a.new_positions j).y
    let d_x := (current_x - other_x) * (current_x - other_x)
    let d_y := (current_y - other_y) * (current_y - other_y)
    let d := d_x + d_y
    let m1 : Memory F :=
      if d < 1 then
        { m with
          speed := Function.update m.speed i
            ⟨(m.speed i).x * DAMPING, (m.speed i).y * DAMPING⟩ }
      else m
    let d := if d < 1 then 1 else d
    match checked_div ok (CONST_G * m1.masses j) d with
    | none => none
    | some g =>
      let dir_x := other_x - current_x
      let dir_y := other_y - current_y
      some { m1 with
        acc := Function.update m1.acc i
          ⟨(m1.acc i).x + dir_x * g, (m1.acc i).y + dir_y * g⟩ }

/-- The body of the outer loop of `update_positions` (lines 43-76) over the
guarded inner loop. -/
def outer_body_checked (ok : F → Bool) (a : thread_args_t) (m : Memory F) (i : Nat) :
    Option (Memory F) :=
  let m0 : Memory F := { m with acc := Function.update m.acc i ⟨0, 0⟩ }
  let current_x := (m0.load a.new_positions i).x
  let current_y := (m0.load a.new_positions i).y
  match (List.range a.total).foldlM (inner_body_checked ok a i current_x current_y) m0 with
  | none => none
  | some m1 =>
    let m2 : Memory F :=
      { m1 with
        speed := Function.update m1.speed i
          ⟨(m1.speed i).x + (m1.acc i).x, (m1.speed i).y + (m1.acc i).y⟩ }
    some (m2.store a.positions i ⟨current_x + (m2.speed i).x, current_y + (m2.speed i).y⟩)

/-- The worker `update_positions` with the division of line 65 guarded by `ok`. -/
def update_positions_checked (ok : F → Bool) (a : thread_args_t) (m : Memory F) :
    Option (Memory F) :=
  (List.range' a.from_ (a.to_ + 1 - a.from_)).foldlM (outer_body_checked ok a) m

/-- The function `update_positions` from its entry (line 40 included) with the
write counter. -/
def update_positions_counted_entry (a : thread_args_t)
    (mc : Memory F × (Buffer → Nat → Nat)) : Option (Memory F × (Buffer → Nat → Nat)) :=
  let from_ := size_t_of_int (int_of_size_t a.from_)
  let to_ := size_t_of_int (int_of_size_t a.to_)
  let total := size_t_of_int (int_of_size_t a.total)
  if to_ = 2 ^ 64 - 1 then none
  else some (update_positions_counted { a with from_ := from_, to_ := to_, total := total } mc)

/-- The workers of a list of argument records, each run from its entry with the
write counter, one after the other. -/
def run_workers_counted_entry (l : List thread_args_t)
    (mc : Memory F × (Buffer → Nat → Nat)) : Option (Memory F × (Buffer → Nat → Nat)) :=
  l.foldlM (fun mc a => update_positions_counted_entry a mc) mc

/-- The integer nearest to `x`, the even one of the two when `x` is half-way
between them. -/
def round_half_even (x : ℚ) : Int :=
  if x - ⌊x⌋ < 1 / 2 then ⌊x⌋
  else if 1 / 2 < x - ⌊x⌋ then ⌊x⌋ + 1
  else if ⌊x⌋ % 2 = 0 then ⌊x⌋
  else ⌊x⌋ + 1

/-- The exponent of `x ≥ 1`: the number of times `x` can be halved before it
is below `2` (`fuel` bounds the search). -/
def exponent_up : Nat → ℚ → Int
  | 0, _ => 0
  | fuel + 1, x => if x < 2 then 0 else exponent_up fuel (x / 2) + 1

/-- The exponent of `0 < x < 1`: minus the number of times `x` has to be doubled
to reach `1` (`fuel` bounds the search). -/
def exponent_down : Nat → ℚ → Int
  | 0, _ => 0
  | fuel + 1, x => if 1 ≤ x then 0 else exponent_down fuel (x * 2) - 1

/-- The binary exponent of `x ≠ 0`: the integer `e` with
`2 ^ e ≤ |x| < 2 ^ (e + 1)`.  The numerator and the denominator of `x` bound
the two searches. -/
def exponent (x : ℚ) : Int :=
  if 1 ≤ |x| then exponent_up x.num.natAbs |x| else exponent_down x.den |x|

/-- The number of a binary floating-point format with `p` significant bits and
least exponent `emin` that is nearest to `x`, ties to even.  The format's
largest number is not modelled: no value rounds to an infinity. -/
def float_round (p : Nat) (emin : Int) (x : ℚ) : ℚ :=
  if x = 0 then 0
  else
    let e := max (exponent x) emin
    round_half_even (x / 2 ^ (e - ((p : Int) - 1))) * 2 ^ (e - ((p : Int) - 1))

/-- Rounding to `float`. -/
def float32 (x : ℚ) : ℚ := float_round 24 (-126) x

/-- Rounding to `double`. -/
def float64 (x : ℚ) : ℚ := float_round 53 (-1022) x

/-- The body of the inner loop of `update_positions` (lines 49-70) in `float`
arithmetic: the result of every operation is rounded to `float`, `CONST_G` is
the `float` nearest to `0.01`, and the products by the `double` literal
`0.9990` of lines 59-60 are made in `double` and stored as `float`. -/
def inner_body_float (a : thread_args_t) (i : Nat) (current_x current_y : ℚ)
    (m : Memory ℚ) (j : Nat) : Memory ℚ :=
  if i = j then m
  else
    let other_x := (m.load a.new_positions j).x
    let other_y := (m.load a.new_positions j).y
    let d_x := float32 (float32 (current_x - other_x) * float32 (current_x - other_x))
    let d_y := float32 (float32 (current_y - other_y) * float32 (current_y - other_y))
    let d := float32 (d_x + d_y)
    let m1 : Memory ℚ :=
      if d < 1 then
        { m with
          speed := Function.update m.speed i
            ⟨float32 (float64 ((m.speed i).x * float64 (999 / 1000))),
             float32 (float64 ((m.speed i).y * float64 (999 / 1000)))⟩ }
      else m
    let d := if d < 1 then 1 else d
    let g := float32 (float32 (float32 (1 / 100) * m1.masses j) / d)
    let dir_x := float32 (other_x - current_x)
    let dir_y := float32 (other_y - current_y)
    { m1 with
      acc := Function.update m1.acc i
        ⟨float32 ((m1.acc i).x + float32 (dir_x * g)),
         float32 ((m1.acc i).y + float32 (dir_y * g))⟩ }

/-- The body of the outer loop of `update_positions` (lines 43-76) in `float`
arithmetic. -/
def outer_body_float (a : thread_args_t) (m : Memory ℚ) (i : Nat) : Memory ℚ :=
  let m0 : Memory ℚ := { m with acc := Function.update m.acc i ⟨0, 0⟩ }
  let current_x := (m0.load a.new_positions i).x
  let current_y := (m0.load a.new_positions i).y
  let m1 := (List.range a.total).foldl (inner_body_float a i current_x current_y) m0
  let m2 : Memory ℚ :=
    { m1 with
      speed := Function.update m1.speed i
        ⟨float32 ((m1.speed i).x + (m1.acc i).x), float32 ((m1.speed i).y + (m1.acc i).y)⟩ }
  m2.store a.positions i
    ⟨float32 (current_x + (m2.speed i).x), float32 (current_y + (m2.speed i).y)⟩

/-- The loops of the worker `update_positions` in `float` arithmetic. -/
def update_positions_float (a : thread_args_t) (m : Memory ℚ) : Memory ℚ :=
  (List.range' a.from_ (a.to_ + 1 - a.from_)).foldl (outer_body_float a) m

/-! ## Closed forms and auxiliary notions used in the statements and proofs -/

/-- The closed form of the interval bounds. -/
def section_at (N K i : Nat) : Vector2 Int :=
  ⟨((i * (N / K) : Nat) : Int),
    if i + 1 = K then (N : Int) - 1 else (((i + 1) * (N / K) : Nat) : Int) - 1⟩

/-- The value `d` of lines 55-57: the squared distance from the current point
`(cx, cy)` to `o`. -/
def sq_dist (cx cy : F) (o : Vector2 F) : F :=
  (cx - o.x) * (cx - o.x) + (cy - o.y) * (cy - o.y)

/-- The scalar `g` of line 65 for a neighbour at `o` of mass `w`. -/
def pair_g (cx cy : F) (o : Vector2 F) (w : F) : F :=
  (CONST_G * w) / (if sq_dist cx cy o < 1 then 1 else sq_dist cx cy o)

/-- Sum of the `x` contributions of the neighbours `j < n`, `j ≠ i`. -/
def acc_sum_x (read : Nat → Vector2 F) (masses : Nat → F) (i : Nat) (cx cy : F) (n : Nat) : F :=
  ∑ j in Finset.range n, if i = j then 0 else ((read j).x - cx) * pair_g cx cy (read j) (masses j)

/-- Sum of the `y` contributions of the neighbours `j < n`, `j ≠ i`. -/
def acc_sum_y (read : Nat → Vector2 F) (masses : Nat → F) (i : Nat) (cx cy : F) (n : Nat) : F :=
  ∑ j in Finset.range n, if i = j then 0 else ((read j).y - cy) * pair_g cx cy (read j) (masses j)

/-- Product of the damping factors picked up from the neighbours `j < n`, `j ≠ i`. -/
def damp_prod (read : Nat → Vector2 F) (i : Nat) (cx cy : F) (n : Nat) : F :=
  ∏ j in Finset.range n, if i = j then 1 else if sq_dist cx cy (read j) < 1 then DAMPING else 1

/-- Memory after the inner loop has handled the neighbours `j < n`. -/
def inner_result (a : thread_args_t) (i : Nat) (cx cy : F) (m : Memory F) (n : Nat) : Memory F :=
  { m with
    speed := Function.update m.speed i
      ⟨(m.speed i).x * damp_prod (m.load a.new_positions) i cx cy n,
       (m.speed i).y * damp_prod (m.load a.new_positions) i cx cy n⟩
    acc := Function.update m.acc i
      ⟨(m.acc i).x + acc_sum_x (m.load a.new_positions) m.masses i cx cy n,
       (m.acc i).y + acc_sum_y (m.load a.new_positions) m.masses i cx cy n⟩ }

/-- Acceleration of body `i` after its pass of the outer loop. -/
def new_acc (read : Nat → Vector2 F) (masses : Nat → F) (total i : Nat) : Vector2 F :=
  ⟨acc_sum_x read masses i (read i).x (read i).y total,
   acc_sum_y read masses i (read i).x (read i).y total⟩

/-- Speed of body `i` after its pass of the outer loop, from its speed `v` before. -/
def new_speed (read : Nat → Vector2 F) (masses : Nat → F) (total i : Nat) (v : Vector2 F) :
    Vector2 F :=
  ⟨v.x * damp_prod read i (read i).x (read i).y total + (new_acc read masses total i).x,
   v.y * damp_prod read i (read i).x (read i).y total + (new_acc read masses total i).y⟩

/-- Position written for body `i` by its pass of the outer loop. -/
def new_pos (read : Nat → Vector2 F) (masses : Nat → F) (total i : Nat) (v : Vector2 F) :
    Vector2 F :=
  ⟨(read i).x + (new_speed read masses total i v).x,
   (read i).y + (new_speed read masses total i v).y⟩

/-- Index `i` belongs to the interval of the call `a`. -/
def in_interval (a : thread_args_t) (i : Nat) : Prop := a.from_ ≤ i ∧ i ≤ a.to_

instance (a : thread_args_t) (i : Nat) : Decidable (in_interval a i) := by
  unfold in_interval; infer_instance

/-- Example call: two bodies, interval `[0, 1]`, reading `pos`, writing `pos2`. -/
def ex_args : thread_args_t :=
  { from_ := 0, to_ := 1, total := 2, new_positions := Buffer.pos, positions := Buffer.pos2 }

/-- Example memory: bodies at `(0,0)` and `(10,0)`, unit masses, at rest. -/
def ex_mem : Memory ℚ :=
  { pos := fun i => if i = 0 then ⟨0, 0⟩ else ⟨10, 0⟩
    pos2 := fun _ => ⟨0, 0⟩
    masses := fun _ => 1
    speed := fun _ => ⟨0, 0⟩
    acc := fun _ => ⟨5, 5⟩ }

/-- A running one-body state: the body is at the origin with speed `(1, 0)`. -/
def one_body : main_state ℚ :=
  { running := true
    buffer_frame := false
    drawn_buffer := Buffer.pos
    updated_buffer := Buffer.pos2
    mem :=
      { pos := fun _ => ⟨0, 0⟩
        pos2 := fun _ => ⟨0, 0⟩
        masses := fun _ => 1
        speed := fun _ => ⟨1, 0⟩
        acc := fun _ => ⟨0, 0⟩ } }

/-- A running two-body state over `ex_mem`. -/
def ex_state : main_state ℚ :=
  { running := true
    buffer_frame := false
    drawn_buffer := Buffer.pos
    updated_buffer := Buffer.pos2
    mem := ex_mem }

/-- The memory `ex_mem` over the real numbers. -/
def ex_mem_real : Memory ℝ :=
  { pos := fun i => if i = 0 then ⟨0, 0⟩ else ⟨10, 0⟩
    pos2 := fun _ => ⟨0, 0⟩
    masses := fun _ => 1
    speed := fun _ => ⟨0, 0⟩
    acc := fun _ => ⟨5, 5⟩ }

/-- Two bodies of unit mass at the same point `(3, 4)`: squared distance `0`. -/
def coincident_pair : Memory ℚ :=
  { pos := fun _ => ⟨3, 4⟩
    pos2 := fun _ => ⟨0, 0⟩
    masses := fun _ => 1
    speed := fun _ => ⟨1, 1⟩
    acc := fun _ => ⟨0, 0⟩ }

/-- The first argument record of a step for `N = 33554441`, `K = 2`. -/
def overlap_first : thread_args_t :=
  { from_ := 0, to_ := 16777220, total := 33554441, new_positions := Buffer.pos,
    positions := Buffer.pos2 }

/-- The second argument record of a step for `N = 33554441`, `K = 2`. -/
def overlap_second : thread_args_t :=
  { from_ := 16777220, to_ := 33554440, total := 33554441, new_positions := Buffer.pos,
    positions := Buffer.pos2 }

/-- The argument record of one call on the whole range for `N = 33554441`. -/
def overlap_whole : thread_args_t :=
  { from_ := 0, to_ := 33554441 - 1, total := 33554441, new_positions := Buffer.pos,
    positions := Buffer.pos2 }

/-- An argument record whose field `from` does not fit an `int`: line 40 loads
`2 ^ 32 + 1` as `1`. -/
def wrap_args : thread_args_t :=
  { from_ := 2 ^ 32 + 1, to_ := 1, total := 2, new_positions := Buffer.pos,
    positions := Buffer.pos2 }

/-- Two bodies of mass `1/4096` at rest, at `(0, 0)` and `(10, 0)`; every value
is a `float`. -/
def light_pair : Memory ℚ :=
  { pos := fun i => if i = 0 then ⟨0, 0⟩ else ⟨10, 0⟩
    pos2 := fun _ => ⟨0, 0⟩
    masses := fun _ => 1 / 4096
    speed := fun _ => ⟨0, 0⟩
    acc := fun _ => ⟨0, 0⟩ }

/-- A lattice of bodies at rest, body `j` at the point `(j % 8192, j / 8192)`:
any two bodies are at distance at least `1`.  Body `0` has mass `1`, the others
have mass `0`.  Every value is a `float` for `j < 2 ^ 26`. -/
def lattice : Memory ℚ :=
  { pos := fun j => ⟨((j % 8192 : Nat) : ℚ), ((j / 8192 : Nat) : ℚ)⟩
    pos2 := fun _ => ⟨0, 0⟩
    masses := fun j => if j = 0 then 1 else 0
    speed := fun _ => ⟨0, 0⟩
    acc := fun _ => ⟨0, 0⟩ }

/-! ## Lemmas and theorems -/

theorem sections_loop_length (N K : Nat) : (sections_loop N K).length = K := by
  simp [sections_loop]

theorem mul_div_le_of_le (N K i : Nat) (hi : i ≤ K) : i * (N / K) ≤ N :=
  le_trans (Nat.mul_le_mul_right _ hi) (Nat.mul_div_le N K)

theorem wrap_id (p N : Nat) (hp : p ≤ N) (hN : N < 2 ^ 31) : p % 2 ^ 64 = p := by
  omega

theorem wrap_pred (r N : Nat) (h1 : 1 ≤ r) (hr : r ≤ N) (hN : N < 2 ^ 31) :
    (((r % 2 ^ 64 + (2 ^ 64 - 1)) % 2 ^ 64 : Nat) : Int) = (r : Int) - 1 := by
  omega

theorem sections_eq (N K : Nat) (hK : 1 ≤ K) (hKN : K ≤ N) (hN : N < 2 ^ 31) :
    sections N K = some ((List.range K).map (section_at N K)) := by
  have hq : 1 ≤ N / K := (Nat.one_le_div_iff (by omega)).2 hKN
  have hlen := sections_loop_length N K
  have hlt : K - 1 < (sections_loop N K).length := by omega
  have hK0 : K ≠ 0 := by omega
  unfold sections
  simp only [List.getElem?_eq_getElem hlt, hK0, if_false]
  congr 1
  apply List.ext_getElem
  · simp [hlen]
  · intro i h1 h2
    have hi : i < K := by simpa [hlen] using h1
    have e1 := wrap_id _ N (mul_div_le_of_le N K i hi.le) hN
    have e2 := wrap_pred _ N (Nat.mul_pos (Nat.succ_pos i) hq) (mul_div_le_of_le N K (i + 1) hi) hN
    simp only [List.getElem_set, List.getElem_map, List.getElem_range, section_at, sections_loop]
    by_cases hik : K - 1 = i
    · have : i + 1 = K := by omega
      subst hik
      simp only [if_true, this, e1]
    · have : ¬ i + 1 = K := by omega
      simp only [hik, this, if_false, e1, e2]

theorem section_at_x (N K i : Nat) : (section_at N K i).x = ((i * (N / K) : Nat) : Int) := rfl

theorem section_at_y_last (N K i : Nat) (h : i + 1 = K) :
    (section_at N K i).y = (N : Int) - 1 := by
  simp [section_at, h]

theorem section_at_y_inner (N K i : Nat) (h : i + 1 ≠ K) :
    (section_at N K i).y = (((i + 1) * (N / K) : Nat) : Int) - 1 := by
  simp [section_at, h]

theorem section_at_y_le (N K i : Nat) (hi : i < K) : (section_at N K i).y ≤ (N : Int) - 1 := by
  by_cases h : i + 1 = K
  · rw [section_at_y_last N K i h]
  · rw [section_at_y_inner N K i h]
    have := mul_div_le_of_le N K (i + 1) hi
    omega

theorem section_at_disjoint (N K i j : Nat) (hij : i < j) (hj : j < K) (n : Int)
    (h1 : n ≤ (section_at N K i).y) (h2 : (section_at N K j).x ≤ n) : False := by
  rw [section_at_y_inner N K i (by omega)] at h1
  rw [section_at_x] at h2
  have : (i + 1) * (N / K) ≤ j * (N / K) := Nat.mul_le_mul_right _ hij
  omega

theorem section_at_cover (N K : Nat) (hK : 1 ≤ K) (hKN : K ≤ N) (n : Nat) (hn : n < N) :
    ∃ i, i < K ∧ (section_at N K i).x ≤ (n : Int) ∧ (n : Int) ≤ (section_at N K i).y := by
  have hq : 0 < N / K := (Nat.one_le_div_iff (by omega)).2 hKN
  by_cases h : n / (N / K) + 1 < K
  · refine ⟨n / (N / K), by omega, ?_, ?_⟩
    · rw [section_at_x]
      have := Nat.div_mul_le_self n (N / K)
      omega
    · rw [section_at_y_inner N K _ (by omega)]
      have h3 : n / (N / K) < n / (N / K) + 1 := Nat.lt_succ_self _
      have := (Nat.div_lt_iff_lt_mul hq).1 h3
      omega
  · refine ⟨K - 1, by omega, ?_, ?_⟩
    · rw [section_at_x]
      have h1 : K - 1 ≤ n / (N / K) := by omega
      have := (Nat.le_div_iff_mul_le hq).1 h1
      omega
    · rw [section_at_y_last N K _ (by omega)]
      omega

/-- C1 (partition invariant).  For `1 ≤ K ≤ N` (and `N` an `int`), `sections`
holds `K` inclusive intervals `[x, y]` with `x = i * (N / K)`,
`y = (i + 1) * (N / K) - 1` for `i < K - 1` and `y = N - 1` for the last one;
two different intervals have no index in common, and an integer lies in some
interval exactly when it is in `{0, ..., N - 1}`. -/
theorem sections_partition (N K : Nat) (hK : 1 ≤ K) (hKN : K ≤ N) (hN : N < 2 ^ 31) :
    ∃ s : List (Vector2 Int), sections N K = some s ∧ s.length = K ∧
      (∀ i (h : i < s.length),
        s[i].x = (i : Int) * ((N / K : Nat) : Int) ∧
        s[i].y = if i + 1 = K then (N : Int) - 1
                 else ((i : Int) + 1) * ((N / K : Nat) : Int) - 1) ∧
      (∀ i j (hi : i < s.length) (hj : j < s.length), i ≠ j →
        ∀ n : Int, ¬ ((s[i].x ≤ n ∧ n ≤ s[i].y) ∧ (s[j].x ≤ n ∧ n ≤ s[j].y))) ∧
      (∀ n : Int, (∃ i, ∃ h : i < s.length, s[i].x ≤ n ∧ n ≤ s[i].y) ↔
        (0 ≤ n ∧ n < (N : Int))) := by
  refine ⟨_, sections_eq N K hK hKN hN, by simp, ?_, ?_, ?_⟩
  · intro i h
    simp only [List.getElem_map, List.getElem_range, section_at]
    refine ⟨by push_cast; rfl, ?_⟩
    split <;> push_cast <;> rfl
  · intro i j hi hj hij n
    have hi' : i < K := by simpa using hi
    have hj' : j < K := by simpa using hj
    simp only [List.getElem_map, List.getElem_range]
    rintro ⟨⟨a1, a2⟩, b1, b2⟩
    rcases Nat.lt_or_gt_of_ne hij with h | h
    · exact section_at_disjoint N K i j h hj' n a2 b1
    · exact section_at_disjoint N K j i h hi' n b2 a1
  · intro n
    constructor
    · rintro ⟨i, h, h1, h2⟩
      have hi' : i < K := by simpa using h
      simp only [List.getElem_map, List.getElem_range] at h1 h2
      have := section_at_y_le N K i hi'
      rw [section_at_x] at h1
      omega
    · rintro ⟨h0, h1⟩
      obtain ⟨i, hi, a1, a2⟩ := section_at_cover N K hK hKN n.toNat (by omega)
      refine ⟨i, by simpa using hi, ?_⟩
      simp only [List.getElem_map, List.getElem_range]
      rw [Int.toNat_of_nonneg h0] at a1 a2
      exact ⟨a1, a2⟩

/-- C1 at `N = 10`, `K = 3`. -/
theorem sections_partition_witness :
    ∃ s : List (Vector2 Int), sections 10 3 = some s ∧ s.length = 3 ∧
      (∀ i (h : i < s.length),
        s[i].x = (i : Int) * ((10 / 3 : Nat) : Int) ∧
        s[i].y = if i + 1 = 3 then ((10 : Nat) : Int) - 1
                 else ((i : Int) + 1) * ((10 / 3 : Nat) : Int) - 1) ∧
      (∀ i j (hi : i < s.length) (hj : j < s.length), i ≠ j →
        ∀ n : Int, ¬ ((s[i].x ≤ n ∧ n ≤ s[i].y) ∧ (s[j].x ≤ n ∧ n ≤ s[j].y))) ∧
      (∀ n : Int, (∃ i, ∃ h : i < s.length, s[i].x ≤ n ∧ n ≤ s[i].y) ↔
        (0 ≤ n ∧ n < ((10 : Nat) : Int))) :=
  sections_partition 10 3 (by decide) (by decide) (by decide)

omit [LinearOrderedField F] in
theorem Memory.ext_fields {m m' : Memory F} (h1 : m.pos = m'.pos) (h2 : m.pos2 = m'.pos2)
    (h3 : m.masses = m'.masses) (h4 : m.speed = m'.speed) (h5 : m.acc = m'.acc) : m = m' := by
  cases m; cases m'; simp_all

@[simp]
theorem load_inner_result (a : thread_args_t) (i : Nat) (cx cy : F) (m : Memory F) (n : Nat)
    (b : Buffer) : (inner_result a i cx cy m n).load b = m.load b := by
  cases b <;> rfl

theorem inner_result_zero (a : thread_args_t) (i : Nat) (cx cy : F) (m : Memory F) :
    inner_result a i cx cy m 0 = m := by
  apply Memory.ext_fields <;>
    simp [inner_result, damp_prod, acc_sum_x, acc_sum_y]

theorem inner_body_self (a : thread_args_t) (i : Nat) (cx cy : F) (m : Memory F) :
    inner_body a i cx cy m i = m := by
  simp [inner_body]

theorem inner_body_ne (a : thread_args_t) (i j : Nat) (cx cy : F) (m : Memory F) (h : i ≠ j) :
    inner_body a i cx cy m j =
      { m with
        speed := Function.update m.speed i
          ⟨(m.speed i).x * (if sq_dist cx cy (m.load a.new_positions j) < 1 then DAMPING else 1),
           (m.speed i).y * (if sq_dist cx cy (m.load a.new_positions j) < 1 then DAMPING else 1)⟩
        acc := Function.update m.acc i
          ⟨(m.acc i).x + ((m.load a.new_positions j).x - cx) *
              pair_g cx cy (m.load a.new_positions j) (m.masses j),
           (m.acc i).y + ((m.load a.new_positions j).y - cy) *
              pair_g cx cy (m.load a.new_positions j) (m.masses j)⟩ } := by
  unfold inner_body pair_g sq_dist
  rw [if_neg h]
  by_cases hd : (cx - (m.load a.new_positions j).x) * (cx - (m.load a.new_positions j).x) +
      (cy - (m.load a.new_positions j).y) * (cy - (m.load a.new_positions j).y) < 1
  · simp only [hd, if_true]
  · simp only [hd, if_false, mul_one]
    apply Memory.ext_fields <;> simp

theorem inner_result_succ (a : thread_args_t) (i : Nat) (cx cy : F) (m : Memory F) (n : Nat) :
    inner_body a i cx cy (inner_result a i cx cy m n) n = inner_result a i cx cy m (n + 1) := by
  by_cases h : i = n
  · subst h
    rw [inner_body_self]
    apply Memory.ext_fields <;>
      simp [inner_result, damp_prod, acc_sum_x, acc_sum_y, Finset.sum_range_succ,
        Finset.prod_range_succ]
  · rw [inner_body_ne _ _ _ _ _ _ h]
    simp only [load_inner_result]
    apply Memory.ext_fields <;>
      simp [inner_result, damp_prod, acc_sum_x, acc_sum_y, Finset.sum_range_succ,
        Finset.prod_range_succ, h, mul_assoc, add_assoc]

theorem inner_loop_eq (a : thread_args_t) (i : Nat) (cx cy : F) (m : Memory F) (n : Nat) :
    (List.range n).foldl (inner_body a i cx cy) m = inner_result a i cx cy m n := by
  induction n with
  | zero => simp [inner_result_zero]
  | succ n ih => rw [List.range_succ, List.foldl_append, ih, List.foldl_cons, List.foldl_nil,
      inner_result_succ]

omit [LinearOrderedField F] in
@[simp]
theorem load_store (m : Memory F) (b b' : Buffer) (i j : Nat) (v : Vector2 F) :
    (m.store b i v).load b' j = if b' = b ∧ j = i then v else m.load b' j := by
  cases b <;> cases b' <;> by_cases h : j = i <;> simp [Memory.store, Memory.load, h]

omit [LinearOrderedField F] in
@[simp]
theorem store_masses (m : Memory F) (b : Buffer) (i : Nat) (v : Vector2 F) :
    (m.store b i v).masses = m.masses := by
  cases b <;> rfl

omit [LinearOrderedField F] in
@[simp]
theorem store_speed (m : Memory F) (b : Buffer) (i : Nat) (v : Vector2 F) :
    (m.store b i v).speed = m.speed := by
  cases b <;> rfl

omit [LinearOrderedField F] in
@[simp]
theorem store_acc (m : Memory F) (b : Buffer) (i : Nat) (v : Vector2 F) :
    (m.store b i v).acc = m.acc := by
  cases b <;> rfl

omit [LinearOrderedField F] in
theorem load_with_acc (m : Memory F) (f : Nat → Vector2 F) (b : Buffer) :
    ({ m with acc := f } : Memory F).load b = m.load b := by
  cases b <;> rfl

omit [LinearOrderedField F] in
theorem load_with_speed (m : Memory F) (f : Nat → Vector2 F) (b : Buffer) :
    ({ m with speed := f } : Memory F).load b = m.load b := by
  cases b <;> rfl

theorem outer_body_masses (a : thread_args_t) (m : Memory F) (i : Nat) :
    (outer_body a m i).masses = m.masses := by
  simp [outer_body, inner_loop_eq, inner_result]

theorem outer_body_acc (a : thread_args_t) (m : Memory F) (i : Nat) :
    (outer_body a m i).acc =
      Function.update m.acc i (new_acc (m.load a.new_positions) m.masses a.total i) := by
  simp [outer_body, inner_loop_eq, inner_result, load_with_acc, new_acc]

theorem outer_body_speed (a : thread_args_t) (m : Memory F) (i : Nat) :
    (outer_body a m i).speed =
      Function.update m.speed i
        (new_speed (m.load a.new_positions) m.masses a.total i (m.speed i)) := by
  simp [outer_body, inner_loop_eq, inner_result, load_with_acc, new_acc, new_speed]

theorem outer_body_load (a : thread_args_t) (m : Memory F) (i : Nat) (b : Buffer) (j : Nat) :
    (outer_body a m i).load b j =
      if b = a.positions ∧ j = i then
        new_pos (m.load a.new_positions) m.masses a.total i (m.speed i)
      else m.load b j := by
  simp only [outer_body, inner_loop_eq, inner_result, load_with_acc, load_store, new_acc,
    new_speed, new_pos, Function.update_same]
  split_ifs
  · simp
  · cases b <;> rfl

theorem outer_body_load_read (a : thread_args_t) (h : a.new_positions ≠ a.positions)
    (m : Memory F) (i : Nat) :
    (outer_body a m i).load a.new_positions = m.load a.new_positions := by
  funext j
  rw [outer_body_load, if_neg (fun hc => h hc.1)]

theorem outer_loop_spec (a : thread_args_t) (h : a.new_positions ≠ a.positions) (n s : Nat)
    (m : Memory F) :
    ((List.range' s n).foldl (outer_body a) m).masses = m.masses ∧
    ((List.range' s n).foldl (outer_body a) m).load a.new_positions = m.load a.new_positions ∧
    (∀ i, ((List.range' s n).foldl (outer_body a) m).acc i =
      if s ≤ i ∧ i < s + n then new_acc (m.load a.new_positions) m.masses a.total i
      else m.acc i) ∧
    (∀ i, ((List.range' s n).foldl (outer_body a) m).speed i =
      if s ≤ i ∧ i < s + n then
        new_speed (m.load a.new_positions) m.masses a.total i (m.speed i)
      else m.speed i) ∧
    (∀ i, ((List.range' s n).foldl (outer_body a) m).load a.positions i =
      if s ≤ i ∧ i < s + n then
        new_pos (m.load a.new_positions) m.masses a.total i (m.speed i)
      else m.load a.positions i) := by
  induction n generalizing s m with
  | zero =>
    have e : ∀ i, ¬ (s ≤ i ∧ i < s) := by intro i; omega
    simp [e]
  | succ n ih =>
    rw [List.range'_succ, List.foldl_cons]
    obtain ⟨h1, h2, h3, h4, h5⟩ := ih (s + 1) (outer_body a m s)
    simp only [outer_body_load_read a h, outer_body_masses] at h1 h2 h3 h4 h5
    refine ⟨h1, h2, ?_, ?_, ?_⟩
    · intro i
      rw [h3 i, outer_body_acc]
      by_cases his : i = s
      · subst his
        simp
      · have e : (s + 1 ≤ i ∧ i < s + 1 + n) ↔ (s ≤ i ∧ i < s + (n + 1)) := by omega
        simp only [e, Function.update_noteq his]
    · intro i
      rw [h4 i, outer_body_speed]
      by_cases his : i = s
      · subst his
        simp
      · have e : (s + 1 ≤ i ∧ i < s + 1 + n) ↔ (s ≤ i ∧ i < s + (n + 1)) := by omega
        simp only [e, Function.update_noteq his]
    · intro i
      rw [h5 i, outer_body_speed, outer_body_load]
      by_cases his : i = s
      · subst his
        simp
      · have e : (s + 1 ≤ i ∧ i < s + 1 + n) ↔ (s ≤ i ∧ i < s + (n + 1)) := by omega
        simp only [e, Function.update_noteq his, his, and_false, if_false]

theorem update_positions_spec (a : thread_args_t) (h : a.new_positions ≠ a.positions)
    (m : Memory F) :
    (update_positions a m).masses = m.masses ∧
    (update_positions a m).load a.new_positions = m.load a.new_positions ∧
    (∀ i, (update_positions a m).acc i =
      if in_interval a i then new_acc (m.load a.new_positions) m.masses a.total i
      else m.acc i) ∧
    (∀ i, (update_positions a m).speed i =
      if in_interval a i then
        new_speed (m.load a.new_positions) m.masses a.total i (m.speed i)
      else m.speed i) ∧
    (∀ i, (update_positions a m).load a.positions i =
      if in_interval a i then
        new_pos (m.load a.new_positions) m.masses a.total i (m.speed i)
      else m.load a.positions i) := by
  have e : ∀ i, (a.from_ ≤ i ∧ i < a.from_ + (a.to_ + 1 - a.from_)) ↔ in_interval a i := by
    intro i; unfold in_interval; omega
  have := outer_loop_spec a h (a.to_ + 1 - a.from_) a.from_ m
  simp only [e] at this
  exact this

omit [LinearOrderedField F] in
theorem Memory.ext_loads {m m' : Memory F} (r w : Buffer) (hrw : r ≠ w)
    (h1 : m.load r = m'.load r) (h2 : m.load w = m'.load w)
    (h3 : m.masses = m'.masses) (h4 : m.speed = m'.speed) (h5 : m.acc = m'.acc) : m = m' := by
  cases r <;> cases w
  · exact absurd rfl hrw
  · exact Memory.ext_fields h1 h2 h3 h4 h5
  · exact Memory.ext_fields h2 h1 h3 h4 h5
  · exact absurd rfl hrw

theorem run_workers_spec (r w : Buffer) (hrw : r ≠ w) (N : Nat) (l : List thread_args_t)
    (hl : ∀ a ∈ l, a.new_positions = r ∧ a.positions = w ∧ a.total = N)
    (hd : l.Pairwise (fun a b => ∀ i, ¬ (in_interval a i ∧ in_interval b i)))
    (m : Memory F) :
    (run_workers l m).masses = m.masses ∧
    (run_workers l m).load r = m.load r ∧
    (∀ i, (∃ a ∈ l, in_interval a i) →
      (run_workers l m).acc i = new_acc (m.load r) m.masses N i ∧
      (run_workers l m).speed i = new_speed (m.load r) m.masses N i (m.speed i) ∧
      (run_workers l m).load w i = new_pos (m.load r) m.masses N i (m.speed i)) ∧
    (∀ i, (∀ a ∈ l, ¬ in_interval a i) →
      (run_workers l m).acc i = m.acc i ∧
      (run_workers l m).speed i = m.speed i ∧
      (run_workers l m).load w i = m.load w i) := by
  induction l generalizing m with
  | nil => simp [run_workers]
  | cons a t ih =>
    obtain ⟨ha1, ha2, ha3⟩ := hl a (List.mem_cons_self a t)
    have hbuf : a.new_positions ≠ a.positions := by rw [ha1, ha2]; exact hrw
    obtain ⟨s1, s2, s3, s4, s5⟩ := update_positions_spec a hbuf m
    rw [ha1] at s2 s3 s4 s5
    rw [ha2] at s5
    rw [ha3] at s3 s4 s5
    rw [List.pairwise_cons] at hd
    obtain ⟨t1, t2, t3, t4⟩ := ih (fun b hb => hl b (List.mem_cons_of_mem a hb)) hd.2
      (update_positions a m)
    rw [s1, s2] at t3
    have e : run_workers (a :: t) m = run_workers t (update_positions a m) := rfl
    rw [e]
    refine ⟨by rw [t1, s1], by rw [t2, s2], ?_, ?_⟩
    · rintro i ⟨b, hb, hbi⟩
      rcases List.mem_cons.1 hb with rfl | hbt
      · have hn : ∀ c ∈ t, ¬ in_interval c i := fun c hc hci => hd.1 c hc i ⟨hbi, hci⟩
        obtain ⟨u1, u2, u3⟩ := t4 i hn
        rw [u1, u2, u3, s3 i, s4 i, s5 i, if_pos hbi, if_pos hbi, if_pos hbi]
        exact ⟨rfl, rfl, rfl⟩
      · have hn : ¬ in_interval a i := fun hai => hd.1 b hbt i ⟨hai, hbi⟩
        obtain ⟨u1, u2, u3⟩ := t3 i ⟨b, hbt, hbi⟩
        rw [s4 i, if_neg hn] at u2 u3
        exact ⟨u1, u2, u3⟩
    · intro i hn
      have hna : ¬ in_interval a i := hn a (List.mem_cons_self a t)
      obtain ⟨u1, u2, u3⟩ := t4 i (fun c hc => hn c (List.mem_cons_of_mem a hc))
      rw [u1, u2, u3, s3 i, s4 i, s5 i, if_neg hna, if_neg hna, if_neg hna]
      exact ⟨rfl, rfl, rfl⟩

theorem section_at_y_nonneg (N K i : Nat) (hK : 1 ≤ K) (hKN : K ≤ N) :
    0 ≤ (section_at N K i).y := by
  have hq : 0 < N / K := (Nat.one_le_div_iff (by omega)).2 hKN
  by_cases h : i + 1 = K
  · rw [section_at_y_last N K i h]; omega
  · rw [section_at_y_inner N K i h]
    have : 0 < (i + 1) * (N / K) := Nat.mul_pos (Nat.succ_pos i) hq
    omega

theorem in_interval_worker_args (N : Nat) (r w : Buffer) (s : Vector2 Int) (hy : 0 ≤ s.y)
    (n : Nat) :
    in_interval (worker_args N r w s) n ↔ (s.x ≤ (n : Int) ∧ (n : Int) ≤ s.y) := by
  unfold in_interval worker_args
  simp only
  omega

theorem step_args_disjoint (N K : Nat) (hK : 1 ≤ K) (hKN : K ≤ N) (r w : Buffer) :
    ((List.range K).map (fun i => worker_args N r w (section_at N K i))).Pairwise
      (fun a b => ∀ i, ¬ (in_interval a i ∧ in_interval b i)) := by
  rw [List.pairwise_map]
  refine List.Pairwise.imp_of_mem ?_ (List.pairwise_lt_range K)
  intro i j hi hj hij n hn
  rw [in_interval_worker_args N r w _ (section_at_y_nonneg N K i hK hKN),
    in_interval_worker_args N r w _ (section_at_y_nonneg N K j hK hKN)] at hn
  exact section_at_disjoint N K i j hij (List.mem_range.1 hj) n hn.1.2 hn.2.1

theorem step_args_cover (N K : Nat) (hK : 1 ≤ K) (hKN : K ≤ N) (r w : Buffer) (n : Nat) :
    (∃ a ∈ (List.range K).map (fun i => worker_args N r w (section_at N K i)),
      in_interval a n) ↔ n < N := by
  constructor
  · rintro ⟨a, ha, hn⟩
    obtain ⟨i, hi, rfl⟩ := List.mem_map.1 ha
    rw [in_interval_worker_args N r w _ (section_at_y_nonneg N K i hK hKN)] at hn
    have := section_at_y_le N K i (List.mem_range.1 hi)
    omega
  · intro hn
    obtain ⟨i, hi, h1, h2⟩ := section_at_cover N K hK hKN n hn
    refine ⟨_, List.mem_map.2 ⟨i, List.mem_range.2 hi, rfl⟩, ?_⟩
    rw [in_interval_worker_args N r w _ (section_at_y_nonneg N K i hK hKN)]
    exact ⟨h1, h2⟩

theorem sections_one_one : sections 1 1 = some [⟨0, 0⟩] := by decide

theorem front_ne_back (b : Bool) :
    (if b then Buffer.pos2 else Buffer.pos) ≠ (if b then Buffer.pos else Buffer.pos2) := by
  cases b <;> simp

theorem single_body_call (r w : Buffer) (hrw : r ≠ w) (m : Memory F) :
    (update_positions (worker_args 1 r w ⟨0, 0⟩) m).acc 0 = ⟨0, 0⟩ ∧
    (update_positions (worker_args 1 r w ⟨0, 0⟩) m).speed 0 = m.speed 0 ∧
    (update_positions (worker_args 1 r w ⟨0, 0⟩) m).load w 0 =
      ⟨(m.load r 0).x + (m.speed 0).x, (m.load r 0).y + (m.speed 0).y⟩ := by
  have hw : worker_args 1 r w ⟨0, 0⟩ =
      { from_ := 0, to_ := 0, total := 1, new_positions := r, positions := w } := rfl
  rw [hw]
  obtain ⟨_, _, s3, s4, s5⟩ := update_positions_spec
    { from_ := 0, to_ := 0, total := 1, new_positions := r, positions := w } hrw m
  have hin : in_interval
      { from_ := 0, to_ := 0, total := 1, new_positions := r, positions := w } 0 := by
    unfold in_interval; simp
  have e1 := s3 0
  have e2 := s4 0
  have e3 := s5 0
  rw [if_pos hin] at e1 e2 e3
  simp only at e1 e2 e3
  have a0 : new_acc (m.load r) m.masses 1 0 = ⟨0, 0⟩ := by
    simp [new_acc, acc_sum_x, acc_sum_y]
  have d0 : damp_prod (m.load r) 0 (m.load r 0).x (m.load r 0).y 1 = 1 := by
    simp [damp_prod]
  have v0 : new_speed (m.load r) m.masses 1 0 (m.speed 0) = m.speed 0 := by
    simp [new_speed, a0, d0]
  refine ⟨by rw [e1, a0], by rw [e2, v0], ?_⟩
  rw [e3]
  simp [new_pos, v0]

theorem single_body_frame (s : main_state F) (hrun : s.running = true) :
    (main_loop_body 1 [⟨0, 0⟩] false s).running = true ∧
    (main_loop_body 1 [⟨0, 0⟩] false s).mem.acc 0 = ⟨0, 0⟩ ∧
    (main_loop_body 1 [⟨0, 0⟩] false s).mem.speed 0 = s.mem.speed 0 ∧
    (main_loop_body 1 [⟨0, 0⟩] false s).mem.load (main_loop_body 1 [⟨0, 0⟩] false s).front 0 =
      ⟨(s.mem.load s.front 0).x + (s.mem.speed 0).x,
       (s.mem.load s.front 0).y + (s.mem.speed 0).y⟩ := by
  have h := single_body_call _ _ (front_ne_back s.buffer_frame) s.mem
  have hf : (main_loop_body 1 [⟨0, 0⟩] false s).front =
      (if s.buffer_frame then Buffer.pos else Buffer.pos2) := by
    simp only [main_loop_body, main_state.front, hrun]
    cases s.buffer_frame <;> simp
  rw [hf]
  simp only [main_loop_body, hrun, Bool.false_eq_true, if_false, if_true, List.map_cons,
    List.map_nil, run_workers, List.foldl_cons, List.foldl_nil, main_state.front]
  exact ⟨trivial, h⟩

theorem single_body_run (s : main_state F) (hrun : s.running = true) (n : Nat) :
    (main_loop 1 [⟨0, 0⟩] (List.replicate n false) s).running = true ∧
    (1 ≤ n → (main_loop 1 [⟨0, 0⟩] (List.replicate n false) s).mem.acc 0 = ⟨0, 0⟩) ∧
    (main_loop 1 [⟨0, 0⟩] (List.replicate n false) s).mem.speed 0 = s.mem.speed 0 ∧
    (main_loop 1 [⟨0, 0⟩] (List.replicate n false) s).mem.load
        (main_loop 1 [⟨0, 0⟩] (List.replicate n false) s).front 0 =
      ⟨(s.mem.load s.front 0).x + n * (s.mem.speed 0).x,
       (s.mem.load s.front 0).y + n * (s.mem.speed 0).y⟩ := by
  induction n generalizing s with
  | zero => simp [main_loop, hrun]
  | succ n ih =>
    obtain ⟨f1, f2, f3, f4⟩ := single_body_frame s hrun
    obtain ⟨g1, g2, g3, g4⟩ := ih (main_loop_body 1 [⟨0, 0⟩] false s) f1
    rw [List.replicate_succ, main_loop]
    refine ⟨g1, fun _ => ?_, by rw [g3, f3], ?_⟩
    · rcases Nat.eq_zero_or_pos n with h0 | hpos
      · subst h0
        simpa [main_loop] using f2
      · exact g2 hpos
    · rw [g4, f3, f4]
      simp only [Vector2.mk.injEq]
      push_cast
      constructor <;> ring

/-- C6, as amended.  Over exact arithmetic, for a single body (`N = 1`, one
worker, interval `[0, 0]`) in a running loop, after `n ≥ 1` steps with the
buffer swap between steps the acceleration is zero, the speed is the initial
speed, and the position in the buffer written last is the initial position plus
`n` times the speed. -/
theorem single_body_steps (secs : List (Vector2 Int)) (hsecs : sections 1 1 = some secs)
    (s : main_state F) (hrun : s.running = true) (n : Nat) (hn : 1 ≤ n) :
    (main_loop 1 secs (List.replicate n false) s).mem.acc 0 = ⟨0, 0⟩ ∧
    (main_loop 1 secs (List.replicate n false) s).mem.speed 0 = s.mem.speed 0 ∧
    (main_loop 1 secs (List.replicate n false) s).mem.load
        (main_loop 1 secs (List.replicate n false) s).front 0 =
      ⟨(s.mem.load s.front 0).x + n * (s.mem.speed 0).x,
       (s.mem.load s.front 0).y + n * (s.mem.speed 0).y⟩ := by
  have hs : secs = [⟨0, 0⟩] := by
    rw [sections_one_one] at hsecs
    exact (Option.some.inj hsecs).symm
  subst hs
  obtain ⟨_, h2, h3, h4⟩ := single_body_run s hrun n
  exact ⟨h2 hn, h3, h4⟩

/-- C6 at the one-body state `one_body`, three steps. -/
theorem single_body_steps_witness :
    sections 1 1 = some [⟨0, 0⟩] ∧ one_body.running = true ∧ 1 ≤ 3 ∧
    (main_loop 1 [⟨0, 0⟩] (List.replicate 3 false) one_body).mem.acc 0 = ⟨0, 0⟩ ∧
    (main_loop 1 [⟨0, 0⟩] (List.replicate 3 false) one_body).mem.speed 0 =
      one_body.mem.speed 0 ∧
    (main_loop 1 [⟨0, 0⟩] (List.replicate 3 false) one_body).mem.load
        (main_loop 1 [⟨0, 0⟩] (List.replicate 3 false) one_body).front 0 =
      ⟨(one_body.mem.load one_body.front 0).x + (3 : Nat) * (one_body.mem.speed 0).x,
       (one_body.mem.load one_body.front 0).y + (3 : Nat) * (one_body.mem.speed 0).y⟩ :=
  ⟨sections_one_one, rfl, by decide,
    single_body_steps [⟨0, 0⟩] sections_one_one one_body rfl 3 (by decide)⟩

/-- C6, counterexample.  A single body at the origin with speed `(1, 0)`: after
one step the buffer just written holds `(1, 0)`, and after two steps `pos` holds
`(2, 0)` and `pos2` holds `(1, 0)`; none is the initial position `(0, 0)`. -/
theorem single_body_position_moves :
    sections 1 1 = some [⟨0, 0⟩] ∧
    one_body.mem.load one_body.front 0 = ⟨0, 0⟩ ∧
    (main_loop 1 [⟨0, 0⟩] [false] one_body).mem.load
        (main_loop 1 [⟨0, 0⟩] [false] one_body).front 0 = ⟨1, 0⟩ ∧
    (main_loop 1 [⟨0, 0⟩] [false, false] one_body).mem.pos 0 = ⟨2, 0⟩ ∧
    (main_loop 1 [⟨0, 0⟩] [false, false] one_body).mem.pos2 0 = ⟨1, 0⟩ ∧
    (main_loop 1 [⟨0, 0⟩] [false] one_body).mem.load
        (main_loop 1 [⟨0, 0⟩] [false] one_body).front 0 ≠
      one_body.mem.load one_body.front 0 := by
  refine ⟨sections_one_one, rfl, ?_, ?_, ?_, ?_⟩
  · simp [main_loop, main_loop_body, one_body, run_workers, worker_args, update_positions,
      outer_body, inner_body, main_state.front, Memory.load, Memory.store, List.range',
      List.range_succ]
  · simp [main_loop, main_loop_body, one_body, run_workers, worker_args, update_positions,
      outer_body, inner_body, main_state.front, Memory.load, Memory.store, List.range',
      List.range_succ]
    norm_num
  · simp [main_loop, main_loop_body, one_body, run_workers, worker_args, update_positions,
      outer_body, inner_body, main_state.front, Memory.load, Memory.store, List.range',
      List.range_succ]
  · simp [main_loop, main_loop_body, one_body, run_workers, worker_args, update_positions,
      outer_body, inner_body, main_state.front, Memory.load, Memory.store, List.range',
      List.range_succ]

theorem two_body_call (r w : Buffer) (hrw : r ≠ w) (m : Memory F) (to_ : Nat) (i j : Nat)
    (hi : i ≤ to_) (hij : (i = 0 ∧ j = 1) ∨ (i = 1 ∧ j = 0)) :
    (update_positions
      { from_ := 0, to_ := to_, total := 2, new_positions := r, positions := w } m).acc i =
      ⟨((m.load r j).x - (m.load r i).x) *
          pair_g (m.load r i).x (m.load r i).y (m.load r j) (m.masses j),
       ((m.load r j).y - (m.load r i).y) *
          pair_g (m.load r i).x (m.load r i).y (m.load r j) (m.masses j)⟩ ∧
    (update_positions
      { from_ := 0, to_ := to_, total := 2, new_positions := r, positions := w } m).speed i =
      ⟨(m.speed i).x *
          (if sq_dist (m.load r i).x (m.load r i).y (m.load r j) < 1 then DAMPING else 1) +
        ((m.load r j).x - (m.load r i).x) *
          pair_g (m.load r i).x (m.load r i).y (m.load r j) (m.masses j),
       (m.speed i).y *
          (if sq_dist (m.load r i).x (m.load r i).y (m.load r j) < 1 then DAMPING else 1) +
        ((m.load r j).y - (m.load r i).y) *
          pair_g (m.load r i).x (m.load r i).y (m.load r j) (m.masses j)⟩ ∧
    (update_positions
      { from_ := 0, to_ := to_, total := 2, new_positions := r, positions := w } m).load w i =
      ⟨(m.load r i).x + ((update_positions
        { from_ := 0, to_ := to_, total := 2, new_positions := r, positions := w } m).speed i).x,
       (m.load r i).y + ((update_positions
        { from_ := 0, to_ := to_, total := 2, new_positions := r, positions := w } m).speed i).y⟩ := by
  obtain ⟨_, _, s3, s4, s5⟩ := update_positions_spec
    { from_ := 0, to_ := to_, total := 2, new_positions := r, positions := w } hrw m
  have hin : in_interval
      { from_ := 0, to_ := to_, total := 2, new_positions := r, positions := w } i := by
    unfold in_interval; simp [hi]
  have e1 := s3 i
  have e2 := s4 i
  have e3 := s5 i
  rw [if_pos hin] at e1 e2 e3
  simp only at e1 e2 e3
  rw [e1, e2, e3]
  rcases hij with ⟨rfl, rfl⟩ | ⟨rfl, rfl⟩ <;>
    simp [new_acc, new_speed, new_pos, acc_sum_x, acc_sum_y, damp_prod, Finset.sum_range_succ,
      Finset.prod_range_succ]

/-- C9, as amended.  Over exact arithmetic, two bodies of equal mass `mass > 0`
at `(0, 0)` and `(10, 0)` in the read buffer, at rest: after one step over
`[0, 1]` the two accelerations are opposite, `acc[0]` points to `+x` and
`acc[1]` to `-x` with zero `y` components, and in the write buffer body 0 has
`x > 0` and body 1 has `x < 10`. -/
theorem two_body_scenario (r w : Buffer) (hrw : r ≠ w) (m : Memory F) (mass : F)
    (hmass : 0 < mass) (hm0 : m.masses 0 = mass) (hm1 : m.masses 1 = mass)
    (hp0 : m.load r 0 = ⟨0, 0⟩) (hp1 : m.load r 1 = ⟨10, 0⟩)
    (hv0 : m.speed 0 = ⟨0, 0⟩) (hv1 : m.speed 1 = ⟨0, 0⟩) :
    ((update_positions
      { from_ := 0, to_ := 1, total := 2, new_positions := r, positions := w } m).acc 0).x =
      -((update_positions
        { from_ := 0, to_ := 1, total := 2, new_positions := r, positions := w } m).acc 1).x ∧
    ((update_positions
      { from_ := 0, to_ := 1, total := 2, new_positions := r, positions := w } m).acc 0).y =
      -((update_positions
        { from_ := 0, to_ := 1, total := 2, new_positions := r, positions := w } m).acc 1).y ∧
    0 < ((update_positions
      { from_ := 0, to_ := 1, total := 2, new_positions := r, positions := w } m).acc 0).x ∧
    ((update_positions
      { from_ := 0, to_ := 1, total := 2, new_positions := r, positions := w } m).acc 1).x < 0 ∧
    ((update_positions
      { from_ := 0, to_ := 1, total := 2, new_positions := r, positions := w } m).acc 0).y = 0 ∧
    ((update_positions
      { from_ := 0, to_ := 1, total := 2, new_positions := r, positions := w } m).acc 1).y = 0 ∧
    0 < ((update_positions
      { from_ := 0, to_ := 1, total := 2, new_positions := r, positions := w } m).load w 0).x ∧
    ((update_positions
      { from_ := 0, to_ := 1, total := 2, new_positions := r, positions := w } m).load w 1).x
      < 10 := by
  obtain ⟨a0, v0, p0⟩ := two_body_call r w hrw m 1 0 1 (by decide) (Or.inl ⟨rfl, rfl⟩)
  obtain ⟨a1, v1, p1⟩ := two_body_call r w hrw m 1 1 0 (le_refl 1) (Or.inr ⟨rfl, rfl⟩)
  have g01 : pair_g (0 : F) 0 ⟨10, 0⟩ mass = mass / 10000 := by
    unfold pair_g sq_dist CONST_G
    norm_num
    ring
  have g10 : pair_g (10 : F) 0 ⟨0, 0⟩ mass = mass / 10000 := by
    unfold pair_g sq_dist CONST_G
    norm_num
    ring
  rw [p0, p1, v0, v1, a0, a1]
  simp only [hp0, hp1, hv0, hv1, hm0, hm1, g01, g10]
  refine ⟨by ring, by ring, ?_, ?_, by ring, by ring, ?_, ?_⟩
  · linarith
  · linarith
  · linarith
  · linarith

/-- C9 at `ex_mem` (unit masses). -/
theorem two_body_scenario_witness :
    Buffer.pos ≠ Buffer.pos2 ∧ (0 : ℚ) < 1 ∧ ex_mem.masses 0 = 1 ∧ ex_mem.masses 1 = 1 ∧
    ex_mem.load Buffer.pos 0 = ⟨0, 0⟩ ∧ ex_mem.load Buffer.pos 1 = ⟨10, 0⟩ ∧
    ex_mem.speed 0 = ⟨0, 0⟩ ∧ ex_mem.speed 1 = ⟨0, 0⟩ ∧
    0 < ((update_positions ex_args ex_mem).acc 0).x ∧
    ((update_positions ex_args ex_mem).acc 1).x < 0 ∧
    0 < ((update_positions ex_args ex_mem).load Buffer.pos2 0).x ∧
    ((update_positions ex_args ex_mem).load Buffer.pos2 1).x < 10 :=
  have h := two_body_scenario Buffer.pos Buffer.pos2 (by decide) ex_mem 1 (by norm_num) rfl rfl
    rfl rfl rfl rfl
  ⟨by decide, by norm_num, rfl, rfl, rfl, rfl, rfl, rfl, h.2.2.1, h.2.2.2.1, h.2.2.2.2.2.2.1,
    h.2.2.2.2.2.2.2⟩

theorem main_loop_body_runs (nb_bodies : Nat) (secs : List (Vector2 Int)) (key : Bool)
    (s : main_state F) (h : step_runs key s = true) :
    (main_loop_body nb_bodies secs key s).buffer_frame = !s.buffer_frame ∧
    (main_loop_body nb_bodies secs key s).drawn_buffer = s.front ∧
    (main_loop_body nb_bodies secs key s).updated_buffer = s.back ∧
    (main_loop_body nb_bodies secs key s).front = s.back ∧
    (main_loop_body nb_bodies secs key s).running = true ∧
    (main_loop_body nb_bodies secs key s).mem =
      run_workers (secs.map (worker_args nb_bodies s.front s.back)) s.mem := by
  unfold step_runs at h
  simp only [main_loop_body, h, if_true, main_state.front, main_state.back]
  cases s.buffer_frame <;> simp

theorem main_loop_body_paused (nb_bodies : Nat) (secs : List (Vector2 Int)) (key : Bool)
    (s : main_state F) (h : step_runs key s = false) :
    (main_loop_body nb_bodies secs key s).buffer_frame = s.buffer_frame ∧
    (main_loop_body nb_bodies secs key s).drawn_buffer = s.drawn_buffer ∧
    (main_loop_body nb_bodies secs key s).updated_buffer = s.updated_buffer ∧
    (main_loop_body nb_bodies secs key s).front = s.front ∧
    (main_loop_body nb_bodies secs key s).running = false ∧
    (main_loop_body nb_bodies secs key s).mem = s.mem := by
  unfold step_runs at h
  simp [main_loop_body, h, main_state.front]

omit [LinearOrderedField F] in
theorem front_ne_back_state (s : main_state F) : s.front ≠ s.back := by
  unfold main_state.front main_state.back
  cases s.buffer_frame <;> simp

theorem main_loop_steps_chain (nb_bodies : Nat) (secs : List (Vector2 Int)) (keys : List Bool)
    (s : main_state F) (x : Buffer) :
    List.Chain (fun p q : Buffer × Buffer => q.1 = p.2) (x, s.front)
      (main_loop_steps nb_bodies secs keys s) ∧
    ∀ p ∈ main_loop_steps nb_bodies secs keys s, p.1 ≠ p.2 := by
  induction keys generalizing s x with
  | nil => simp [main_loop_steps]
  | cons k ks ih =>
    cases h : step_runs k s
    · obtain ⟨_, _, _, hf, _, _⟩ := main_loop_body_paused nb_bodies secs k s h
      have := ih (main_loop_body nb_bodies secs k s) x
      rw [hf] at this
      simpa [main_loop_steps, h] using this
    · obtain ⟨_, hd, hu, hf, _, _⟩ := main_loop_body_runs nb_bodies secs k s h
      obtain ⟨c1, c2⟩ := ih (main_loop_body nb_bodies secs k s) s.front
      rw [hf] at c1
      simp only [main_loop_steps, h, if_true, List.singleton_append, List.chain_cons, hd, hu,
        List.mem_cons, forall_eq_or_imp]
      exact ⟨⟨trivial, c1⟩, front_ne_back_state s, c2⟩


/-- C13 (double-buffer alternation).  In one pass through the loop body
`buffer_frame` is negated when a step runs in the pass and is left alone
otherwise, and the workers of that step run on the buffers chosen by the flag
before it is negated.  Hence, over any sequence of passes from any state, each
step reads the buffer the step before it wrote, the first step reads the buffer
the flag designates at the start (`pos` when `main` enters its loop), and the
read and write buffers of a step are different arrays. -/
theorem buffer_alternation (nb_bodies : Nat) (secs : List (Vector2 Int)) :
    (∀ (key : Bool) (s : main_state F),
      (main_loop_body nb_bodies secs key s).buffer_frame =
        (if step_runs key s then !s.buffer_frame else s.buffer_frame) ∧
      (main_loop_body nb_bodies secs key s).mem =
        (if step_runs key s then
          run_workers (secs.map (worker_args nb_bodies s.front s.back)) s.mem
        else s.mem)) ∧
    (∀ (keys : List Bool) (s : main_state F),
      List.Chain' (fun p q : Buffer × Buffer => q.1 = p.2)
        (main_loop_steps nb_bodies secs keys s) ∧
      (∀ p ∈ main_loop_steps nb_bodies secs keys s, p.1 ≠ p.2) ∧
      (∀ p ∈ (main_loop_steps nb_bodies secs keys s).head?, p.1 = s.front)) ∧
    (∀ m : Memory F, (main_init m).front = Buffer.pos) := by
  refine ⟨fun key s => ?_, fun keys s => ?_, fun m => rfl⟩
  · cases h : step_runs key s
    · obtain ⟨h1, _, _, _, _, h6⟩ := main_loop_body_paused nb_bodies secs key s h
      simp [h1, h6]
    · obtain ⟨h1, _, _, _, _, h6⟩ := main_loop_body_runs nb_bodies secs key s h
      simp [h1, h6]
  · obtain ⟨c1, c2⟩ := main_loop_steps_chain nb_bodies secs keys s s.front
    have c3 : List.Chain' (fun p q : Buffer × Buffer => q.1 = p.2)
        ((s.front, s.front) :: main_loop_steps nb_bodies secs keys s) := c1
    rw [List.chain'_cons'] at c3
    exact ⟨c3.2, c2, c3.1⟩

/-- C13 at the two-body state `ex_state`, three passes with a pause in the
middle: two steps run, the first reads `pos` and writes `pos2`, the second reads
`pos2` and writes `pos`. -/
theorem buffer_alternation_witness :
    main_loop_steps 2 [⟨0, 1⟩] [false, true, true] ex_state =
      [(Buffer.pos, Buffer.pos2), (Buffer.pos2, Buffer.pos)] ∧
    List.Chain' (fun p q : Buffer × Buffer => q.1 = p.2)
      (main_loop_steps 2 [⟨0, 1⟩] [false, true, true] ex_state) ∧
    (∀ p ∈ main_loop_steps 2 [⟨0, 1⟩] [false, true, true] ex_state, p.1 ≠ p.2) ∧
    (∀ p ∈ (main_loop_steps 2 [⟨0, 1⟩] [false, true, true] ex_state).head?,
      p.1 = ex_state.front) :=
  ⟨by simp [main_loop_steps, step_runs, main_loop_body, ex_state],
    (buffer_alternation 2 [⟨0, 1⟩]).2.1 [false, true, true] ex_state⟩

theorem main_loop_front (nb_bodies : Nat) (secs : List (Vector2 Int)) (keys : List Bool)
    (s : main_state F) :
    (main_loop nb_bodies secs keys s).front =
      ((main_loop_steps nb_bodies secs keys s).getLast?.map Prod.snd).getD s.front := by
  induction keys generalizing s with
  | nil => rfl
  | cons k ks ih =>
    rw [main_loop, ih]
    cases h : step_runs k s
    · obtain ⟨_, _, _, hf, _, _⟩ := main_loop_body_paused nb_bodies secs k s h
      simp [main_loop_steps, h, hf]
    · obtain ⟨_, _, hu, hf, _, _⟩ := main_loop_body_runs nb_bodies secs k s h
      simp only [main_loop_steps, h, if_true, List.getLast?_append, hf, hu,
        List.getLast?_singleton]
      cases (main_loop_steps nb_bodies secs ks (main_loop_body nb_bodies secs k s)).getLast? <;>
        rfl

/-- The variable `drawn_buffer` in a pass through the loop body: when a step
runs it is the write buffer of the last step run in the passes before (or, if
none ran, the buffer the flag designated at the start); when no step runs it
keeps the value the pass before left in it. -/
theorem drawn_buffer_latest (nb_bodies : Nat) (secs : List (Vector2 Int)) (keys : List Bool)
    (key : Bool) (s : main_state F) :
    (main_loop_body nb_bodies secs key (main_loop nb_bodies secs keys s)).drawn_buffer =
      if step_runs key (main_loop nb_bodies secs keys s) then
        ((main_loop_steps nb_bodies secs keys s).getLast?.map Prod.snd).getD s.front
      else (main_loop nb_bodies secs keys s).drawn_buffer := by
  cases h : step_runs key (main_loop nb_bodies secs keys s)
  · obtain ⟨_, hd, _⟩ := main_loop_body_paused nb_bodies secs key _ h
    simp [hd]
  · obtain ⟨_, hd, _⟩ := main_loop_body_runs nb_bodies secs key _ h
    rw [hd, main_loop_front]
    simp

/-- C16, counterexample.  Two bodies, one worker: a first pass runs a step that
reads `pos` and writes `pos2`; in the next pass the space key pauses the loop,
no step runs, and the drawing code still takes body 1 from `drawn_buffer = pos`,
which holds `(10, 0)`, while the frame completed last is in `pos2` and holds
`(9999/1000, 0)`. -/
theorem drawn_buffer_stale_when_paused :
    sections 2 1 = some [⟨0, 1⟩] ∧
    main_loop_steps 2 [⟨0, 1⟩] [false] ex_state = [(Buffer.pos, Buffer.pos2)] ∧
    step_runs true (main_loop 2 [⟨0, 1⟩] [false] ex_state) = false ∧
    (main_loop_body 2 [⟨0, 1⟩] true (main_loop 2 [⟨0, 1⟩] [false] ex_state)).drawn_buffer =
      Buffer.pos ∧
    draw_reads 2
        (main_loop_body 2 [⟨0, 1⟩] true (main_loop 2 [⟨0, 1⟩] [false] ex_state)).drawn_buffer =
      [(Buffer.pos, 0), (Buffer.pos, 1)] ∧
    (main_loop_body 2 [⟨0, 1⟩] true (main_loop 2 [⟨0, 1⟩] [false] ex_state)).mem.pos 1 =
      ⟨10, 0⟩ ∧
    (main_loop_body 2 [⟨0, 1⟩] true (main_loop 2 [⟨0, 1⟩] [false] ex_state)).mem.pos2 1 =
      ⟨9999 / 1000, 0⟩ := by
  refine ⟨by decide, ?_, ?_, ?_, ?_, ?_, ?_⟩
  · simp [main_loop_steps, step_runs, main_loop_body, ex_state]
  · simp [main_loop, step_runs, main_loop_body, ex_state]
  · simp [main_loop, step_runs, main_loop_body, ex_state]
  · simp [main_loop, step_runs, main_loop_body, ex_state, draw_reads, List.range']
  · simp [main_loop, main_loop_body, ex_state, ex_mem, run_workers, worker_args,
      update_positions, outer_body, inner_body, Memory.load, Memory.store, List.range',
      List.range_succ]
    norm_num
  · simp [main_loop, main_loop_body, ex_state, ex_mem, run_workers, worker_args,
      update_positions, outer_body, inner_body, Memory.load, Memory.store, List.range',
      List.range_succ, CONST_G, DAMPING]
    norm_num

/-- C14, the code at a failing input.  Two bodies, one worker, two passes in
which a step runs: in the second pass the workers read `pos2` and write `pos`,
the worker's interval contains index 0, and the drawing code reads the cell
`pos[0]` of the buffer being written; that cell holds `(1/1000, 0)` in the read
buffer `pos2`, holds `(0, 0)` in `pos` before the step and something else
after it. -/
theorem draw_reads_write_buffer :
    sections 2 1 = some [⟨0, 1⟩] ∧
    step_runs false (main_loop 2 [⟨0, 1⟩] [false] ex_state) = true ∧
    (main_loop 2 [⟨0, 1⟩] [false, false] ex_state).drawn_buffer = Buffer.pos2 ∧
    (main_loop 2 [⟨0, 1⟩] [false, false] ex_state).updated_buffer = Buffer.pos ∧
    draw_reads 2 (main_loop 2 [⟨0, 1⟩] [false, false] ex_state).drawn_buffer =
      [(Buffer.pos, 0), (Buffer.pos2, 1)] ∧
    in_interval (worker_args 2 Buffer.pos2 Buffer.pos ⟨0, 1⟩) 0 ∧
    (main_loop 2 [⟨0, 1⟩] [false] ex_state).mem.pos2 0 = ⟨1 / 1000, 0⟩ ∧
    (main_loop 2 [⟨0, 1⟩] [false] ex_state).mem.pos 0 = ⟨0, 0⟩ ∧
    (main_loop 2 [⟨0, 1⟩] [false, false] ex_state).mem.pos 0 ≠ ⟨0, 0⟩ := by
  refine ⟨by decide, ?_, ?_, ?_, ?_, by decide, ?_, ?_, ?_⟩
  · simp [main_loop, step_runs, main_loop_body, ex_state]
  · simp [main_loop, main_loop_body, ex_state]
  · simp [main_loop, main_loop_body, ex_state]
  · simp [main_loop, main_loop_body, ex_state, draw_reads, List.range']
  · simp [main_loop, main_loop_body, ex_state, ex_mem, run_workers, worker_args,
      update_positions, outer_body, inner_body, Memory.load, Memory.store, List.range',
      List.range_succ, CONST_G, DAMPING]
    norm_num
  · simp [main_loop, main_loop_body, ex_state, ex_mem, run_workers, worker_args,
      update_positions, outer_body, inner_body, Memory.load, Memory.store, List.range',
      List.range_succ]
    norm_num
  · simp [main_loop, main_loop_body, ex_state, ex_mem, run_workers, worker_args,
      update_positions, outer_body, inner_body, Memory.load, Memory.store, List.range',
      List.range_succ, CONST_G, DAMPING]
    norm_num

theorem inner_body_load (a : thread_args_t) (i j : Nat) (cx cy : F) (m : Memory F)
    (b : Buffer) : (inner_body a i cx cy m j).load b = m.load b := by
  by_cases h : i = j
  · subst h; rw [inner_body_self]
  · rw [inner_body_ne a i j cx cy m h]
    cases b <;> rfl

theorem sqrt_lt_one_iff (sqrtf : F → F)
    (hsqrt : ∀ x : F, 0 ≤ x → 0 ≤ sqrtf x ∧ sqrtf x * sqrtf x = x) (x : F) (hx : 0 ≤ x) :
    sqrtf x < 1 ↔ x < 1 := by
  obtain ⟨h0, h1⟩ := hsqrt x hx
  constructor
  · intro h
    nlinarith
  · intro h
    by_contra hc
    push_neg at hc
    nlinarith

theorem sq_dist_nonneg (cx cy : F) (o : Vector2 F) : 0 ≤ sq_dist cx cy o := by
  unfold sq_dist
  nlinarith [mul_self_nonneg (cx - o.x), mul_self_nonneg (cy - o.y)]

theorem REFERENCE_inner_body_eq (sqrtf : F → F)
    (hsqrt : ∀ x : F, 0 ≤ x → 0 ≤ sqrtf x ∧ sqrtf x * sqrtf x = x)
    (a : thread_args_t) (i j : Nat) (m : Memory F) :
    REFERENCE_inner_body sqrtf a i m j =
      inner_body a i (m.load a.new_positions i).x (m.load a.new_positions i).y m j := by
  by_cases h : i = j
  · subst h
    rw [inner_body_self]
    simp [REFERENCE_inner_body]
  · rw [inner_body_ne a i j _ _ m h]
    have hnn := sq_dist_nonneg (m.load a.new_positions i).x (m.load a.new_positions i).y
      (m.load a.new_positions j)
    have hiff := sqrt_lt_one_iff sqrtf hsqrt _ hnn
    have hsq := (hsqrt _ hnn).2
    unfold REFERENCE_inner_body Vector2Distance pair_g
    unfold sq_dist at hiff hsq ⊢
    rw [if_neg h]
    by_cases hlt : ((m.load a.new_positions i).x - (m.load a.new_positions j).x) *
          ((m.load a.new_positions i).x - (m.load a.new_positions j).x) +
        ((m.load a.new_positions i).y - (m.load a.new_positions j).y) *
          ((m.load a.new_positions i).y - (m.load a.new_positions j).y) < 1
    · have hlt' := hiff.2 hlt
      simp only [hlt, hlt', if_true, mul_one, load_with_speed, Vector2Scale, Vector2Add,
        Vector2Subtract, Function.update_same]
    · have hlt' : ¬ _ := fun hc => hlt (hiff.1 hc)
      simp only [hlt, hlt', if_false, mul_one, hsq, Vector2Scale, Vector2Add,
        Vector2Subtract]
      apply Memory.ext_fields <;> simp

theorem REFERENCE_inner_loop_eq (sqrtf : F → F)
    (hsqrt : ∀ x : F, 0 ≤ x → 0 ≤ sqrtf x ∧ sqrtf x * sqrtf x = x)
    (a : thread_args_t) (i : Nat) (cx cy : F) (l : List Nat) (m : Memory F)
    (hx : (m.load a.new_positions i).x = cx) (hy : (m.load a.new_positions i).y = cy) :
    l.foldl (REFERENCE_inner_body sqrtf a i) m = l.foldl (inner_body a i cx cy) m := by
  induction l generalizing m with
  | nil => rfl
  | cons j t ih =>
    rw [List.foldl_cons, List.foldl_cons, REFERENCE_inner_body_eq sqrtf hsqrt, hx, hy]
    apply ih
    · rw [inner_body_load, hx]
    · rw [inner_body_load, hy]

theorem REFERENCE_outer_body_eq (sqrtf : F → F)
    (hsqrt : ∀ x : F, 0 ≤ x → 0 ≤ sqrtf x ∧ sqrtf x * sqrtf x = x)
    (a : thread_args_t) (m : Memory F) (i : Nat) :
    REFERENCE_outer_body sqrtf a m i = outer_body a m i := by
  unfold REFERENCE_outer_body outer_body Vector2Zero
  simp only
  rw [REFERENCE_inner_loop_eq sqrtf hsqrt a i
    (({ m with acc := Function.update m.acc i ⟨0, 0⟩ } : Memory F).load a.new_positions i).x
    (({ m with acc := Function.update m.acc i ⟨0, 0⟩ } : Memory F).load a.new_positions i).y
    (List.range a.total) _ rfl rfl]
  simp only [Vector2Add, load_with_speed, inner_loop_eq, load_inner_result]

/-- The loops of the two kernels agree: over exact arithmetic with a square
root (`sqrtf x ≥ 0` and `sqrtf x * sqrtf x = x` for `x ≥ 0`), the loops of
`REFERENCE_update_positions` and those of `update_positions` leave the same
memory when run with the same bounds. -/
theorem reference_refinement (sqrtf : F → F)
    (hsqrt : ∀ x : F, 0 ≤ x → 0 ≤ sqrtf x ∧ sqrtf x * sqrtf x = x)
    (a : thread_args_t) (m : Memory F) :
    REFERENCE_update_positions sqrtf a m = update_positions a m := by
  unfold REFERENCE_update_positions update_positions
  congr 1
  funext m' i
  exact REFERENCE_outer_body_eq sqrtf hsqrt a m' i

theorem one_le_clamp (d : F) : 1 ≤ (if d < 1 then 1 else d) := by
  split_ifs with h
  · exact le_refl 1
  · exact not_lt.1 h

theorem inner_body_checked_eq (ok : F → Bool) (hok : ∀ d : F, 1 ≤ d → ok d = true)
    (a : thread_args_t) (i : Nat) (cx cy : F) (m : Memory F) (j : Nat) :
    inner_body_checked ok a i cx cy m j = some (inner_body a i cx cy m j) := by
  unfold inner_body_checked inner_body checked_div
  by_cases h : i = j
  · simp [h]
  · simp only [h, if_false, hok _ (one_le_clamp _), if_true]

omit [LinearOrderedField F] in
theorem foldlM_some_eq {α : Type} (f : Memory F → α → Option (Memory F))
    (g : Memory F → α → Memory F) (hfg : ∀ m x, f m x = some (g m x)) (l : List α)
    (m : Memory F) : l.foldlM f m = some (l.foldl g m) := by
  induction l generalizing m with
  | nil => rfl
  | cons x t ih =>
    rw [List.foldlM_cons, hfg, List.foldl_cons]
    exact ih (g m x)

theorem outer_body_checked_eq (ok : F → Bool) (hok : ∀ d : F, 1 ≤ d → ok d = true)
    (a : thread_args_t) (m : Memory F) (i : Nat) :
    outer_body_checked ok a m i = some (outer_body a m i) := by
  unfold outer_body_checked outer_body
  simp only [foldlM_some_eq _ _ (inner_body_checked_eq ok hok a i _ _)]

theorem update_positions_checked_eq (ok : F → Bool) (hok : ∀ d : F, 1 ≤ d → ok d = true)
    (a : thread_args_t) (m : Memory F) :
    update_positions_checked ok a m = some (update_positions a m) :=
  foldlM_some_eq _ _ (outer_body_checked_eq ok hok a) _ m

/-- C18 (no division by zero in the kernel).  For every argument record and
every memory, `update_positions` with the division of line 65 guarded by the
test `1 ≤ d` never fails and returns what `update_positions` returns: the
divisor is `≥ 1` at every division.  So does the kernel guarded by `d ≠ 0`. -/
theorem no_division_by_zero (a : thread_args_t) (m : Memory F) :
    update_positions_checked (fun d => decide (1 ≤ d)) a m = some (update_positions a m) ∧
    update_positions_checked (fun d => decide (d ≠ 0)) a m = some (update_positions a m) := by
  refine ⟨update_positions_checked_eq _ (fun d hd => ?_) a m,
    update_positions_checked_eq _ (fun d hd => ?_) a m⟩
  · exact decide_eq_true hd
  · exact decide_eq_true (ne_of_gt (lt_of_lt_of_le zero_lt_one hd))



/-- The guard is a real one: on two coincident bodies, where the divisor is the
clamped value `1`, the kernel guarded by the stronger test `2 ≤ d` fails. -/
theorem checked_guard_can_fail :
    update_positions_checked (fun d => decide (2 ≤ d)) ex_args coincident_pair = none := by
  simp [update_positions_checked, ex_args, coincident_pair, outer_body_checked,
    inner_body_checked, checked_div, Memory.load, List.range', List.range_succ]

theorem float_of_int_small (z : Int) (h0 : -1 ≤ z) (h1 : z ≤ 2 ^ 24) : float_of_int z = z := by
  unfold float_of_int float_of_nat
  by_cases hz : 0 ≤ z
  · have : z.toNat ≤ 2 ^ 24 := by omega
    rw [if_pos hz, if_pos this]
    omega
  · have hz1 : z = -1 := by omega
    subst hz1
    decide

theorem section_at_bounds (N K i : Nat) (hK : 1 ≤ K) (hKN : K ≤ N) (hi : i < K) :
    0 ≤ (section_at N K i).x ∧ (section_at N K i).x ≤ (N : Int) ∧
    0 ≤ (section_at N K i).y ∧ (section_at N K i).y ≤ (N : Int) - 1 := by
  have h1 := mul_div_le_of_le N K i hi.le
  have h2 := section_at_y_nonneg N K i hK hKN
  have h3 := section_at_y_le N K i hi
  rw [section_at_x]
  omega

theorem sections_float_eq (N K : Nat) (hK : 1 ≤ K) (hKN : K ≤ N) (hN : N ≤ 2 ^ 24) :
    sections_float N K = some ((List.range K).map (section_at N K)) := by
  unfold sections_float
  rw [sections_eq N K hK hKN (by omega), Option.map_some']
  congr 1
  rw [List.map_map]
  apply List.map_congr_left
  intro i hi
  obtain ⟨b1, b2, b3, b4⟩ := section_at_bounds N K i hK hKN (List.mem_range.1 hi)
  simp only [Function.comp_apply]
  rw [float_of_int_small _ (by omega) (by omega), float_of_int_small _ (by omega) (by omega)]

theorem step_args_eq (N K : Nat) (hK : 1 ≤ K) (hKN : K ≤ N) (hN : N ≤ 2 ^ 24) (r w : Buffer) :
    step_args N K r w =
      some ((List.range K).map (fun i => worker_args N r w (section_at N K i))) := by
  unfold step_args
  rw [sections_float_eq N K hK hKN hN]
  have hall : ((List.range K).map (section_at N K)).all convertible = true := by
    rw [List.all_eq_true]
    intro v hv
    obtain ⟨i, hi, rfl⟩ := List.mem_map.1 hv
    obtain ⟨b1, b2, b3, b4⟩ := section_at_bounds N K i hK hKN (List.mem_range.1 hi)
    unfold convertible
    rw [decide_eq_true_iff]
    omega
  simp only [hall, if_true, List.map_map, Function.comp_def]

theorem size_t_of_int_of_size_t (n : Nat) (h : n < 2 ^ 31) :
    size_t_of_int (int_of_size_t n) = n := by
  unfold size_t_of_int int_of_size_t
  have h1 : n % 2 ^ 32 = n := Nat.mod_eq_of_lt (by omega)
  rw [h1, if_pos h]
  omega

theorem update_positions_entry_eq (a : thread_args_t) (m : Memory F) (h1 : a.from_ < 2 ^ 31)
    (h2 : a.to_ < 2 ^ 31) (h3 : a.total < 2 ^ 31) :
    update_positions_entry a m = some (update_positions a m) := by
  unfold update_positions_entry
  simp only [size_t_of_int_of_size_t _ h1, size_t_of_int_of_size_t _ h2,
    size_t_of_int_of_size_t _ h3]
  rw [if_neg (by omega)]

theorem run_workers_entry_eq (l : List thread_args_t)
    (hl : ∀ a ∈ l, a.from_ < 2 ^ 31 ∧ a.to_ < 2 ^ 31 ∧ a.total < 2 ^ 31) (m : Memory F) :
    run_workers_entry l m = some (run_workers l m) := by
  induction l generalizing m with
  | nil => rfl
  | cons a t ih =>
    obtain ⟨h1, h2, h3⟩ := hl a (List.mem_cons_self a t)
    unfold run_workers_entry run_workers
    rw [List.foldlM_cons, update_positions_entry_eq a m h1 h2 h3, List.foldl_cons]
    exact ih (fun b hb => hl b (List.mem_cons_of_mem a hb)) (update_positions a m)

theorem step_args_small (N K : Nat) (hK : 1 ≤ K) (hKN : K ≤ N) (hN : N ≤ 2 ^ 24) (r w : Buffer) :
    ∀ a ∈ (List.range K).map (fun i => worker_args N r w (section_at N K i)),
      a.from_ < 2 ^ 31 ∧ a.to_ < 2 ^ 31 ∧ a.total < 2 ^ 31 := by
  intro a ha
  obtain ⟨i, hi, rfl⟩ := List.mem_map.1 ha
  obtain ⟨b1, b2, b3, b4⟩ := section_at_bounds N K i hK hKN (List.mem_range.1 hi)
  simp only [worker_args]
  omega

theorem run_workers_whole (N K : Nat) (hK : 1 ≤ K) (hKN : K ≤ N) (r w : Buffer) (hrw : r ≠ w)
    (m : Memory F) (l : List thread_args_t)
    (hl : l.Perm ((List.range K).map (fun i => worker_args N r w (section_at N K i)))) :
    run_workers l m =
      update_positions
        { from_ := 0, to_ := N - 1, total := N, new_positions := r, positions := w } m := by
  have hmem : ∀ a ∈ l, a.new_positions = r ∧ a.positions = w ∧ a.total = N := by
    intro a ha
    obtain ⟨i, _, rfl⟩ := List.mem_map.1 ((hl.mem_iff).1 ha)
    exact ⟨rfl, rfl, rfl⟩
  have hdis : l.Pairwise (fun a b => ∀ i, ¬ (in_interval a i ∧ in_interval b i)) := by
    refine (List.Perm.pairwise_iff ?_ hl).2 (step_args_disjoint N K hK hKN r w)
    intro a b hab i hi
    exact hab i ⟨hi.2, hi.1⟩
  obtain ⟨s1, s2, s3, s4⟩ := run_workers_spec r w hrw N l hmem hdis m
  obtain ⟨u1, u2, u3, u4, u5⟩ := update_positions_spec
    { from_ := 0, to_ := N - 1, total := N, new_positions := r, positions := w } hrw m
  simp only at u2 u3 u4 u5
  have hcov : ∀ i, (∃ a ∈ l, in_interval a i) ↔ i < N := by
    intro i
    rw [← step_args_cover N K hK hKN r w i]
    constructor
    · rintro ⟨a, ha, h⟩
      exact ⟨a, (hl.mem_iff).1 ha, h⟩
    · rintro ⟨a, ha, h⟩
      exact ⟨a, (hl.mem_iff).2 ha, h⟩
  have hwhole : ∀ i, in_interval
      { from_ := 0, to_ := N - 1, total := N, new_positions := r, positions := w } i ↔ i < N := by
    intro i
    unfold in_interval
    simp only
    omega
  have key : ∀ i,
      (run_workers l m).acc i = (update_positions
        { from_ := 0, to_ := N - 1, total := N, new_positions := r, positions := w } m).acc i ∧
      (run_workers l m).speed i = (update_positions
        { from_ := 0, to_ := N - 1, total := N, new_positions := r, positions := w } m).speed i ∧
      (run_workers l m).load w i = (update_positions
        { from_ := 0, to_ := N - 1, total := N, new_positions := r, positions := w } m).load w i := by
    intro i
    rw [u3 i, u4 i, u5 i]
    by_cases hi : i < N
    · rw [if_pos ((hwhole i).2 hi), if_pos ((hwhole i).2 hi), if_pos ((hwhole i).2 hi)]
      exact s3 i ((hcov i).2 hi)
    · rw [if_neg (fun h => hi ((hwhole i).1 h)), if_neg (fun h => hi ((hwhole i).1 h)),
        if_neg (fun h => hi ((hwhole i).1 h))]
      exact s4 i (fun a ha h => hi ((hcov i).1 ⟨a, ha, h⟩))
  exact Memory.ext_loads r w hrw (by rw [s2, u2]) (funext fun i => (key i).2.2)
    (by rw [s1, u1]) (funext fun i => (key i).2.1) (funext fun i => (key i).1)

/-- C5, as amended.  For `1 ≤ K ≤ N ≤ 2 ^ 24` and distinct read and write
buffers, `main` builds `K` argument records, and running `update_positions`
once on each of them, one after the other in any order, returns the memory that
one call on the whole range `[0, N - 1]` returns. -/
theorem step_order_independent (N K : Nat) (hK : 1 ≤ K) (hKN : K ≤ N) (hN : N ≤ 2 ^ 24)
    (r w : Buffer) (hrw : r ≠ w) (m : Memory F) :
    ∃ args : List thread_args_t, step_args N K r w = some args ∧ args.length = K ∧
      ∀ l : List thread_args_t, l.Perm args →
        ∃ m' : Memory F, run_workers_entry l m = some m' ∧
          update_positions_entry
            { from_ := 0, to_ := N - 1, total := N, new_positions := r, positions := w } m =
              some m' := by
  refine ⟨_, step_args_eq N K hK hKN hN r w, by simp, ?_⟩
  intro l hl
  refine ⟨run_workers l m, ?_, ?_⟩
  · apply run_workers_entry_eq
    intro a ha
    exact step_args_small N K hK hKN hN r w a ((hl.mem_iff).1 ha)
  · rw [update_positions_entry_eq _ m (by simp) (by simp only; omega) (by simp only; omega),
      run_workers_whole N K hK hKN r w hrw m l hl]

/-- C5 at `N = 10`, `K = 3` on `ex_mem`. -/
theorem step_order_independent_witness :
    1 ≤ 3 ∧ 3 ≤ 10 ∧ 10 ≤ 2 ^ 24 ∧ Buffer.pos ≠ Buffer.pos2 ∧
    ∃ args : List thread_args_t,
      step_args 10 3 Buffer.pos Buffer.pos2 = some args ∧ args.length = 3 ∧
      ∀ l : List thread_args_t, l.Perm args →
        ∃ m' : Memory ℚ, run_workers_entry l ex_mem = some m' ∧
          update_positions_entry
            { from_ := 0, to_ := 10 - 1, total := 10, new_positions := Buffer.pos,
              positions := Buffer.pos2 } ex_mem = some m' :=
  ⟨by decide, by decide, by decide, by decide,
    step_order_independent 10 3 (by decide) (by decide) (by decide) Buffer.pos Buffer.pos2
      (by decide) ex_mem⟩

/-- C15 (chunk sizes), amended to `1 ≤ K ≤ N ≤ 2 ^ 24`, where every bound is
stored in a `float` without rounding.  Each of the first `K - 1` stored
intervals contains exactly `N / K` indices and the next interval starts right
after it, and the last interval contains exactly `N - (K - 1) * (N / K)`
indices. -/
theorem sections_chunk_sizes (N K : Nat) (hK : 1 ≤ K) (hKN : K ≤ N) (hN : N ≤ 2 ^ 24) :
    ∃ s : List (Vector2 Int), sections_float N K = some s ∧ s.length = K ∧
      (∀ i (h : i + 1 < s.length),
        (Finset.Icc s[i].x s[i].y).card = N / K ∧ s[i + 1].x = s[i].y + 1) ∧
      (∀ h : K - 1 < s.length,
        (Finset.Icc s[K - 1].x s[K - 1].y).card = N - (K - 1) * (N / K)) := by
  refine ⟨_, sections_float_eq N K hK hKN hN, by simp, ?_, ?_⟩
  · intro i h
    have hi : i + 1 < K := by simpa using h
    simp only [List.getElem_map, List.getElem_range, Int.card_Icc]
    rw [section_at_x, section_at_x, section_at_y_inner N K i (by omega)]
    have e : (i + 1) * (N / K) = i * (N / K) + N / K := by ring
    rw [e]
    generalize N / K = q
    generalize i * q = p
    constructor
    · omega
    · omega
  · intro h
    simp only [List.getElem_map, List.getElem_range, Int.card_Icc]
    rw [section_at_x, section_at_y_last N K (K - 1) (by omega)]
    have := mul_div_le_of_le N K (K - 1) (by omega)
    generalize (K - 1) * (N / K) = p at *
    omega

/-- C15 at `N = 10`, `K = 3`. -/
theorem sections_chunk_sizes_witness :
    1 ≤ 3 ∧ 3 ≤ 10 ∧ 10 ≤ 2 ^ 24 ∧
    ∃ s : List (Vector2 Int), sections_float 10 3 = some s ∧ s.length = 3 ∧
      (∀ i (h : i + 1 < s.length),
        (Finset.Icc s[i].x s[i].y).card = 10 / 3 ∧ s[i + 1].x = s[i].y + 1) ∧
      (∀ h : 3 - 1 < s.length,
        (Finset.Icc s[3 - 1].x s[3 - 1].y).card = 10 - (3 - 1) * (10 / 3)) :=
  ⟨by decide, by decide, by decide, sections_chunk_sizes 10 3 (by decide) (by decide) (by decide)⟩

/-- C15, counterexample.  For `N = 33554441` and `K = 2` the upper bound
`16777219` of the first interval is stored as the `float` `16777220`: the stored
intervals are `[0, 16777220]` and `[16777220, 33554440]`, the first contains
`N / K + 1` indices and the second starts at the upper bound of the first, not
right after it. -/
theorem sections_chunk_sizes_large :
    (1 ≤ 2 ∧ 2 ≤ 33554441 ∧ 33554441 < 2 ^ 31) ∧
    sections_float 33554441 2 = some [⟨0, 16777220⟩, ⟨16777220, 33554440⟩] ∧
    (Finset.Icc (0 : Int) 16777220).card = 33554441 / 2 + 1 ∧
    (16777220 : Int) ≠ 16777220 + 1 := by
  refine ⟨by decide, by decide!, ?_, by decide⟩
  rw [Int.card_Icc]
  decide

theorem float_of_int_zero : float_of_int 0 = 0 := by decide

theorem float_of_int_max : float_of_int (((2 ^ 64 - 1 : Nat) : Int)) = 2 ^ 64 := by decide!

/-- C10, as amended.  The interval construction rejects nothing: for every body
count `N` and every worker count `K ≥ 1`, also with `K > N` or `N = 0`, it
stores `K` intervals; with `K > N` each of the first `K - 1` stored intervals is
`[0, 2 ^ 64]` (the `float` of `2 ^ 64 - 1`) and the last one is `[0, N - 1]`. -/
theorem sections_rejects_nothing (N K : Nat) (hK : 1 ≤ K) :
    ∃ s : List (Vector2 Int), sections_float N K = some s ∧ s.length = K ∧
      (N < K → ∀ i (h : i < s.length),
        s[i] = if i + 1 = K then ⟨0, float_of_int ((N : Int) - 1)⟩ else ⟨0, 2 ^ 64⟩) := by
  have hlen := sections_loop_length N K
  have hlt : K - 1 < (sections_loop N K).length := by omega
  have hK0 : K ≠ 0 := by omega
  have hs : sections N K = some ((sections_loop N K).set (K - 1)
      { x := ((sections_loop N K)[K - 1]).x, y := (N : Int) - 1 }) := by
    unfold sections
    simp only [List.getElem?_eq_getElem hlt, hK0, if_false]
  unfold sections_float
  rw [hs, Option.map_some']
  refine ⟨_, rfl, by simp [hlen], ?_⟩
  intro hNK i h
  have hi : i < K := by simpa [hlen] using h
  have hq : N / K = 0 := Nat.div_eq_of_lt hNK
  rw [List.getElem_map, List.getElem_set]
  by_cases hl : i + 1 = K
  · have e : K - 1 = i := by omega
    rw [if_pos e, if_pos hl]
    simp only [sections_loop, List.getElem_map, List.getElem_range, hq, Nat.mul_zero,
      Nat.zero_mod, Nat.cast_zero, float_of_int_zero]
  · have e : ¬ K - 1 = i := by omega
    rw [if_neg e, if_neg hl]
    simp only [sections_loop, List.getElem_map, List.getElem_range, hq, Nat.mul_zero,
      Nat.zero_mod, Nat.cast_zero, float_of_int_zero, Nat.zero_add]
    rw [Nat.mod_eq_of_lt (by decide), float_of_int_max]

/-- C10 at `N = 2`, `K = 3`. -/
theorem sections_rejects_nothing_witness :
    1 ≤ 3 ∧ ∃ s : List (Vector2 Int), sections_float 2 3 = some s ∧ s.length = 3 ∧
      ((2 : Nat) < 3 → ∀ i (h : i < s.length),
        s[i] = if i + 1 = 3 then ⟨0, float_of_int (((2 : Nat) : Int) - 1)⟩ else ⟨0, 2 ^ 64⟩) :=
  ⟨by decide, sections_rejects_nothing 2 3 (by decide)⟩

/-- C10, counterexample.  With no body at all (`N = 0`, `K = 1`) and with more
workers than bodies (`N = 2`, `K = 3`) the construction does not fail: it
stores the interval `[0, -1]` in the first case and the three intervals
`[0, 2 ^ 64]`, `[0, 2 ^ 64]`, `[0, 1]` in the second. -/
theorem sections_accepts_invalid :
    sections_float 0 1 = some [⟨0, -1⟩] ∧
    sections_float 2 3 = some [⟨0, 2 ^ 64⟩, ⟨0, 2 ^ 64⟩, ⟨0, 1⟩] := by
  refine ⟨by decide, by decide!⟩

/-- C17 (the optimised kernel refines the reference), amended to argument
records whose `from`, `to` and `total` are below `2 ^ 31`, the values line 40
of `update_positions` loads into `int` variables unchanged.  Over exact
arithmetic with a square root (`sqrtf x ≥ 0` and `sqrtf x * sqrtf x = x` for
`x ≥ 0`, as over the real numbers), `update_positions` returns and leaves the
memory (positions, speed and acc) that `REFERENCE_update_positions` leaves. -/
theorem reference_refinement_entry (sqrtf : F → F)
    (hsqrt : ∀ x : F, 0 ≤ x → 0 ≤ sqrtf x ∧ sqrtf x * sqrtf x = x)
    (a : thread_args_t) (m : Memory F) (hfrom : a.from_ < 2 ^ 31) (hto : a.to_ < 2 ^ 31)
    (htotal : a.total < 2 ^ 31) :
    update_positions_entry a m = some (REFERENCE_update_positions sqrtf a m) := by
  rw [update_positions_entry_eq a m hfrom hto htotal, reference_refinement sqrtf hsqrt a m]

/-- C17 over the real numbers with `Real.sqrt`, at the call `ex_args` on
`ex_mem_real`. -/
theorem reference_refinement_entry_witness :
    (∀ x : ℝ, 0 ≤ x → 0 ≤ Real.sqrt x ∧ Real.sqrt x * Real.sqrt x = x) ∧
    ex_args.from_ < 2 ^ 31 ∧ ex_args.to_ < 2 ^ 31 ∧ ex_args.total < 2 ^ 31 ∧
    update_positions_entry ex_args ex_mem_real =
      some (REFERENCE_update_positions Real.sqrt ex_args ex_mem_real) :=
  ⟨fun x hx => ⟨Real.sqrt_nonneg x, Real.mul_self_sqrt hx⟩, by decide, by decide, by decide,
    reference_refinement_entry Real.sqrt
      (fun x hx => ⟨Real.sqrt_nonneg x, Real.mul_self_sqrt hx⟩) ex_args ex_mem_real
      (by decide) (by decide) (by decide)⟩

/-- C17, counterexample.  On the record `wrap_args` (`from = 2 ^ 32 + 1`,
`to = 1`, `total = 2`) the loop of `REFERENCE_update_positions`, which runs on
the `size_t` fields, has no pass and leaves the memory as it was, while
`update_positions`, which loads `from` as `1`, assigns `acc[1]`. -/
theorem reference_differs_on_wrap :
    REFERENCE_update_positions Real.sqrt wrap_args ex_mem_real = ex_mem_real ∧
    ex_mem_real.acc 1 = ⟨5, 5⟩ ∧
    (update_positions_entry wrap_args ex_mem_real).map (fun m => m.acc 1) =
      some ⟨-1 / 1000, 0⟩ := by
  refine ⟨rfl, rfl, ?_⟩
  have e : update_positions_entry wrap_args ex_mem_real =
      some (update_positions
        { from_ := 1, to_ := 1, total := 2, new_positions := Buffer.pos,
          positions := Buffer.pos2 } ex_mem_real) := by
    unfold update_positions_entry
    rw [if_neg (by decide)]
    rfl
  obtain ⟨_, _, s3, _, _⟩ := update_positions_spec
    { from_ := 1, to_ := 1, total := 2, new_positions := Buffer.pos,
      positions := Buffer.pos2 } (by decide) ex_mem_real
  have e1 := s3 1
  rw [if_pos (by unfold in_interval; simp)] at e1
  rw [e, Option.map_some', e1]
  simp [new_acc, acc_sum_x, acc_sum_y, pair_g, sq_dist, CONST_G, Finset.sum_range_succ,
    ex_mem_real, Memory.load]
  norm_num

/-- C16, as amended.  In every pass through the loop body, the cell from which
the drawing code takes the body `i`, for `1 ≤ i < nb_bodies` (line 242), is the
cell `i` of one buffer.  In a pass in which a step runs that buffer is the one
that holds the most recently completed frame: the write buffer of the last step
run in the passes before (or, if none ran, the buffer the flag designated at
the start, `pos` when `main` enters its loop).  In a pass in which no step runs
it is the buffer the pass before left in `drawn_buffer`. -/
theorem draw_reads_latest (nb_bodies : Nat) (secs : List (Vector2 Int)) (keys : List Bool)
    (key : Bool) (s : main_state F) (i : Nat) (h1 : 1 ≤ i) (h2 : i < nb_bodies) :
    (draw_reads nb_bodies
        (main_loop_body nb_bodies secs key (main_loop nb_bodies secs keys s)).drawn_buffer)[i]? =
      some (if step_runs key (main_loop nb_bodies secs keys s) then
          ((main_loop_steps nb_bodies secs keys s).getLast?.map Prod.snd).getD s.front
        else (main_loop nb_bodies secs keys s).drawn_buffer, i) := by
  obtain ⟨k, rfl⟩ : ∃ k, i = k + 1 := ⟨i - 1, by omega⟩
  unfold draw_reads
  rw [drawn_buffer_latest, List.getElem?_cons_succ, List.getElem?_map,
    List.getElem?_range' 1 1 (by omega : k < nb_bodies - 1)]
  simp only [Option.map_some', one_mul, Nat.add_comm 1 k]

/-- C16 at the two-body state `ex_state`: body 1 in a second pass in which a
step runs. -/
theorem draw_reads_latest_witness :
    1 ≤ 1 ∧ 1 < 2 ∧
    (draw_reads 2
        (main_loop_body 2 [⟨0, 1⟩] false (main_loop 2 [⟨0, 1⟩] [false] ex_state)).drawn_buffer)[1]? =
      some (if step_runs false (main_loop 2 [⟨0, 1⟩] [false] ex_state) then
          ((main_loop_steps 2 [⟨0, 1⟩] [false] ex_state).getLast?.map Prod.snd).getD
            ex_state.front
        else (main_loop 2 [⟨0, 1⟩] [false] ex_state).drawn_buffer, 1) :=
  ⟨by decide, by decide,
    draw_reads_latest 2 [⟨0, 1⟩] [false] false ex_state 1 (by decide) (by decide)⟩

theorem outer_body_counted_eq (a : thread_args_t) (mc : Memory F × (Buffer → Nat → Nat))
    (i : Nat) :
    outer_body_counted a mc i =
      (outer_body a mc.1 i,
        fun b j => if b = a.positions ∧ j = i then mc.2 b j + 1 else mc.2 b j) := rfl

theorem outer_loop_counted (a : thread_args_t) (n s : Nat)
    (mc : Memory F × (Buffer → Nat → Nat)) :
    ((List.range' s n).foldl (outer_body_counted a) mc).1 =
      (List.range' s n).foldl (outer_body a) mc.1 ∧
    ∀ b i, ((List.range' s n).foldl (outer_body_counted a) mc).2 b i =
      mc.2 b i + if b = a.positions ∧ s ≤ i ∧ i < s + n then 1 else 0 := by
  induction n with
  | zero =>
    refine ⟨rfl, fun b i => ?_⟩
    have : ¬ (b = a.positions ∧ s ≤ i ∧ i < s + 0) := by omega
    simp [this]
  | succ n ih =>
    obtain ⟨h1, h2⟩ := ih
    rw [List.range'_concat, List.foldl_append, List.foldl_append, List.foldl_cons,
      List.foldl_nil, List.foldl_cons, List.foldl_nil, one_mul]
    rw [outer_body_counted_eq]
    refine ⟨by simp only [h1], fun b i => ?_⟩
    simp only [h2]
    by_cases hb : b = a.positions
    · by_cases hi : i = s + n
      · subst hi
        have e1 : ¬ (b = a.positions ∧ s ≤ s + n ∧ s + n < s + n) := by omega
        have e2 : b = a.positions ∧ s ≤ s + n ∧ s + n < s + (n + 1) := ⟨hb, by omega, by omega⟩
        rw [if_pos ⟨hb, rfl⟩, if_neg e1, if_pos e2]
      · have e : (b = a.positions ∧ s ≤ i ∧ i < s + n) ↔
            (b = a.positions ∧ s ≤ i ∧ i < s + (n + 1)) := by
          constructor
          · rintro ⟨x, y, z⟩; exact ⟨x, y, by omega⟩
          · rintro ⟨x, y, z⟩; exact ⟨x, y, by omega⟩
        rw [if_neg (fun h => hi h.2)]
        simp only [e]
    · rw [if_neg (fun h => hb h.1), if_neg (fun h => hb h.1), if_neg (fun h => hb h.1)]

theorem update_positions_counted_spec (a : thread_args_t)
    (mc : Memory F × (Buffer → Nat → Nat)) :
    (update_positions_counted a mc).1 = update_positions a mc.1 ∧
    ∀ b i, (update_positions_counted a mc).2 b i =
      mc.2 b i + if b = a.positions ∧ in_interval a i then 1 else 0 := by
  obtain ⟨h1, h2⟩ := outer_loop_counted a (a.to_ + 1 - a.from_) a.from_ mc
  refine ⟨h1, fun b i => ?_⟩
  have e : (b = a.positions ∧ a.from_ ≤ i ∧ i < a.from_ + (a.to_ + 1 - a.from_)) ↔
      (b = a.positions ∧ in_interval a i) := by
    unfold in_interval
    constructor
    · rintro ⟨x, y, z⟩; exact ⟨x, y, by omega⟩
    · rintro ⟨x, y, z⟩; exact ⟨x, y, by omega⟩
  unfold update_positions_counted
  rw [h2 b i]
  simp only [e]

theorem run_workers_counted_spec (l : List thread_args_t)
    (mc : Memory F × (Buffer → Nat → Nat)) :
    (run_workers_counted l mc).1 = run_workers l mc.1 ∧
    ∀ b i, (run_workers_counted l mc).2 b i =
      mc.2 b i + l.countP (fun a => decide (b = a.positions ∧ in_interval a i)) := by
  induction l generalizing mc with
  | nil => exact ⟨rfl, fun b i => rfl⟩
  | cons a t ih =>
    obtain ⟨s1, s2⟩ := update_positions_counted_spec a mc
    obtain ⟨t1, t2⟩ := ih (update_positions_counted a mc)
    unfold run_workers_counted run_workers at *
    rw [List.foldl_cons, List.foldl_cons]
    refine ⟨by rw [t1, s1], fun b i => ?_⟩
    rw [t2 b i, s2 b i, List.countP_cons]
    by_cases h : b = a.positions ∧ in_interval a i
    · simp only [h, and_self, if_true, decide_True]
      omega
    · simp only [h, if_false, decide_False]
      simp

theorem update_positions_counted_entry_eq (a : thread_args_t)
    (mc : Memory F × (Buffer → Nat → Nat)) (h1 : a.from_ < 2 ^ 31) (h2 : a.to_ < 2 ^ 31)
    (h3 : a.total < 2 ^ 31) :
    update_positions_counted_entry a mc = some (update_positions_counted a mc) := by
  unfold update_positions_counted_entry
  simp only [size_t_of_int_of_size_t _ h1, size_t_of_int_of_size_t _ h2,
    size_t_of_int_of_size_t _ h3]
  rw [if_neg (by omega)]

theorem run_workers_counted_entry_eq (l : List thread_args_t)
    (hl : ∀ a ∈ l, a.from_ < 2 ^ 31 ∧ a.to_ < 2 ^ 31 ∧ a.total < 2 ^ 31)
    (mc : Memory F × (Buffer → Nat → Nat)) :
    run_workers_counted_entry l mc = some (run_workers_counted l mc) := by
  induction l generalizing mc with
  | nil => rfl
  | cons a t ih =>
    obtain ⟨h1, h2, h3⟩ := hl a (List.mem_cons_self a t)
    unfold run_workers_counted_entry run_workers_counted
    rw [List.foldlM_cons, update_positions_counted_entry_eq a mc h1 h2 h3, List.foldl_cons]
    exact ih (fun b hb => hl b (List.mem_cons_of_mem a hb)) (update_positions_counted a mc)

omit [LinearOrderedField F] in
theorem countP_le_one_of_pairwise {α : Type} (p : α → Bool) (l : List α)
    (h : l.Pairwise (fun a b => ¬ (p a = true ∧ p b = true))) : l.countP p ≤ 1 := by
  induction l with
  | nil => simp
  | cons a t ih =>
    rw [List.pairwise_cons] at h
    rw [List.countP_cons]
    have := ih h.2
    by_cases ha : p a = true
    · have ht : t.countP p = 0 := by
        rw [List.countP_eq_zero]
        intro b hb hpb
        exact h.1 b hb ⟨ha, hpb⟩
      simp [ha, ht]
    · simp [ha]
      exact this

theorem step_args_count (N K : Nat) (hK : 1 ≤ K) (hKN : K ≤ N) (r w b : Buffer) (i : Nat) :
    ((List.range K).map (fun i => worker_args N r w (section_at N K i))).countP
        (fun a => decide (b = a.positions ∧ in_interval a i)) =
      if b = w ∧ i < N then 1 else 0 := by
  have hpos : ∀ a ∈ (List.range K).map (fun i => worker_args N r w (section_at N K i)),
      a.positions = w := by
    intro a ha
    obtain ⟨j, _, rfl⟩ := List.mem_map.1 ha
    rfl
  have hle := countP_le_one_of_pairwise
    (fun a : thread_args_t => decide (b = a.positions ∧ in_interval a i)) _
    ((step_args_disjoint N K hK hKN r w).imp (fun {a c} hac hp => by
      simp only [decide_eq_true_eq] at hp
      exact hac i ⟨hp.1.2, hp.2.2⟩))
  by_cases h : b = w ∧ i < N
  · rw [if_pos h]
    obtain ⟨a, ha, hai⟩ := (step_args_cover N K hK hKN r w i).2 h.2
    have hp : 0 < ((List.range K).map (fun i => worker_args N r w (section_at N K i))).countP
        (fun a => decide (b = a.positions ∧ in_interval a i)) := by
      rw [List.countP_pos_iff]
      exact ⟨a, ha, by simp only [decide_eq_true_eq]; exact ⟨by rw [hpos a ha]; exact h.1, hai⟩⟩
    omega
  · rw [if_neg h, List.countP_eq_zero]
    intro a ha hp
    simp only [decide_eq_true_eq] at hp
    exact h ⟨by rw [← hpos a ha]; exact hp.1,
      (step_args_cover N K hK hKN r w i).1 ⟨a, ha, hp.2⟩⟩

/-- C12 (buffer integrity), amended to `1 ≤ K ≤ N ≤ 2 ^ 24`, where every
interval bound is stored in a `float` without rounding.  When `update_positions`
is run once on each of the `K` argument records of a step, starting with all
write counters at zero, every worker returns, every cell `i < N` of the write
buffer has been assigned exactly once, no other cell of a position array has
been assigned, and the memory is the one the uninstrumented workers leave. -/
theorem buffer_integrity (N K : Nat) (hK : 1 ≤ K) (hKN : K ≤ N) (hN : N ≤ 2 ^ 24)
    (r w : Buffer) (m : Memory F) :
    ∃ args : List thread_args_t, step_args N K r w = some args ∧ args.length = K ∧
      ∃ mc : Memory F × (Buffer → Nat → Nat),
        run_workers_counted_entry args (m, fun _ _ => 0) = some mc ∧
        run_workers_entry args m = some mc.1 ∧
        ∀ b i, mc.2 b i = if b = w ∧ i < N then 1 else 0 := by
  refine ⟨_, step_args_eq N K hK hKN hN r w, by simp, _,
    run_workers_counted_entry_eq _ (step_args_small N K hK hKN hN r w) _, ?_, ?_⟩
  · obtain ⟨h1, _⟩ := run_workers_counted_spec
      ((List.range K).map (fun i => worker_args N r w (section_at N K i)))
      ((m, fun _ _ => 0) : Memory F × (Buffer → Nat → Nat))
    rw [h1]
    exact run_workers_entry_eq _ (step_args_small N K hK hKN hN r w) m
  · intro b i
    obtain ⟨_, h2⟩ := run_workers_counted_spec
      ((List.range K).map (fun i => worker_args N r w (section_at N K i)))
      ((m, fun _ _ => 0) : Memory F × (Buffer → Nat → Nat))
    rw [h2 b i, step_args_count N K hK hKN r w b i]
    simp

/-- C12 at `N = 10`, `K = 3` on `ex_mem`. -/
theorem buffer_integrity_witness :
    1 ≤ 3 ∧ 3 ≤ 10 ∧ 10 ≤ 2 ^ 24 ∧
    ∃ args : List thread_args_t,
      step_args 10 3 Buffer.pos Buffer.pos2 = some args ∧ args.length = 3 ∧
      ∃ mc : Memory ℚ × (Buffer → Nat → Nat),
        run_workers_counted_entry args (ex_mem, fun _ _ => 0) = some mc ∧
        run_workers_entry args ex_mem = some mc.1 ∧
        ∀ b i, mc.2 b i = if b = Buffer.pos2 ∧ i < 10 then 1 else 0 :=
  ⟨by decide, by decide, by decide,
    buffer_integrity 10 3 (by decide) (by decide) (by decide) Buffer.pos Buffer.pos2 ex_mem⟩

/-- C12, counterexample.  For `N = 33554441` and `K = 2` the two argument
records of a step are `overlap_first`, on `[0, 16777220]`, and
`overlap_second`, on `[16777220, 33554440]`: the cell `16777220` of the write
buffer is assigned twice. -/
theorem buffer_integrity_overlap :
    (1 ≤ 2 ∧ 2 ≤ 33554441 ∧ 33554441 < 2 ^ 31) ∧
    step_args 33554441 2 Buffer.pos Buffer.pos2 = some [overlap_first, overlap_second] ∧
    (run_workers_counted_entry [overlap_first, overlap_second]
        (lattice, fun _ _ => 0)).map (fun mc => mc.2 Buffer.pos2 16777220) = some 2 := by
  refine ⟨by decide, by decide!, ?_⟩
  have e : run_workers_counted_entry [overlap_first, overlap_second] (lattice, fun _ _ => 0) =
      some (run_workers_counted [overlap_first, overlap_second] (lattice, fun _ _ => 0)) :=
    run_workers_counted_entry_eq _ (by
      intro a ha
      simp only [List.mem_cons, List.mem_singleton, List.not_mem_nil, or_false] at ha
      rcases ha with rfl | rfl <;> exact ⟨by decide, by decide, by decide⟩) _
  obtain ⟨_, h2⟩ := run_workers_counted_spec [overlap_first, overlap_second]
    ((lattice, fun _ _ => 0) : Memory ℚ × (Buffer → Nat → Nat))
  rw [e, Option.map_some', h2 Buffer.pos2 16777220]
  have c : [overlap_first, overlap_second].countP
      (fun a => decide (Buffer.pos2 = a.positions ∧ in_interval a 16777220)) = 2 := by
    decide
  rw [c]

/-- C9, counterexample.  In `float` arithmetic, two bodies of mass `1/4096` at
`(0, 0)` and `(10, 0)`, at rest: after one step over `[0, 1]` the acceleration
of body 1 is `-8589934 / 2 ^ 45`, about `-2.44e-7`, less than half the distance
`2 ^ -20` between `10` and the `float` below it, so that the sum of line 75 is
rounded to `10`: in the write buffer the body that was at `x = 10` is still at
`x = 10`. -/
theorem two_body_float_stays :
    (0 : ℚ) < 1 / 4096 ∧ light_pair.masses 0 = 1 / 4096 ∧ light_pair.masses 1 = 1 / 4096 ∧
    light_pair.load Buffer.pos 0 = ⟨0, 0⟩ ∧ light_pair.load Buffer.pos 1 = ⟨10, 0⟩ ∧
    light_pair.speed 0 = ⟨0, 0⟩ ∧ light_pair.speed 1 = ⟨0, 0⟩ ∧
    (update_positions_float ex_args light_pair).acc 1 = ⟨-8589934 / 2 ^ 45, 0⟩ ∧
    ((update_positions_float ex_args light_pair).load Buffer.pos2 1).x = 10 := by
  refine ⟨by decide!, rfl, rfl, rfl, rfl, rfl, rfl, by decide!, by decide!⟩

theorem new_acc_single_mass (read : Nat → Vector2 F) (masses : Nat → F) (N i : Nat)
    (hN : 0 < N) (hi : i ≠ 0) (hm : ∀ j, j ≠ 0 → masses j = 0) :
    new_acc read masses N i =
      ⟨((read 0).x - (read i).x) * pair_g (read i).x (read i).y (read 0) (masses 0),
       ((read 0).y - (read i).y) * pair_g (read i).x (read i).y (read 0) (masses 0)⟩ := by
  have hg : ∀ j, j ≠ 0 → pair_g (read i).x (read i).y (read j) (masses j) = 0 := by
    intro j hj
    unfold pair_g
    rw [hm j hj, mul_zero, zero_div]
  unfold new_acc acc_sum_x acc_sum_y
  rw [Finset.sum_eq_single 0, Finset.sum_eq_single 0]
  · simp only [if_neg hi]
  · intro j _ hj
    split_ifs
    · rfl
    · rw [hg j hj, mul_zero]
  · intro h
    exact absurd (Finset.mem_range.2 hN) h
  · intro j _ hj
    split_ifs
    · rfl
    · rw [hg j hj, mul_zero]
  · intro h
    exact absurd (Finset.mem_range.2 hN) h

theorem damp_prod_far (read : Nat → Vector2 F) (i : Nat) (cx cy : F) (N : Nat)
    (h : ∀ j, j ≠ i → ¬ sq_dist cx cy (read j) < 1) : damp_prod read i cx cy N = 1 := by
  unfold damp_prod
  apply Finset.prod_eq_one
  intro j _
  by_cases hj : i = j
  · rw [if_pos hj]
  · rw [if_neg hj, if_neg (h j (fun e => hj e.symm))]

/-- Two workers whose intervals both hold the body `j` update its speed twice. -/
theorem run_workers_pair_speed (a0 a1 : thread_args_t) (r w : Buffer) (hrw : r ≠ w) (N : Nat)
    (h0 : a0.new_positions = r ∧ a0.positions = w ∧ a0.total = N)
    (h1 : a1.new_positions = r ∧ a1.positions = w ∧ a1.total = N)
    (m : Memory F) (j : Nat) (i0 : in_interval a0 j) (i1 : in_interval a1 j) :
    (run_workers [a0, a1] m).speed j =
      new_speed (m.load r) m.masses N j (new_speed (m.load r) m.masses N j (m.speed j)) := by
  obtain ⟨n0, p0, t0⟩ := h0
  obtain ⟨n1, p1, t1⟩ := h1
  simp only [run_workers, List.foldl_cons, List.foldl_nil]
  obtain ⟨s1, s2, _, s4, _⟩ := update_positions_spec a0 (by rw [n0, p0]; exact hrw) m
  obtain ⟨_, _, _, u4, _⟩ := update_positions_spec a1 (by rw [n1, p1]; exact hrw)
    (update_positions a0 m)
  have e1 := s4 j
  have e2 := u4 j
  rw [if_pos i0] at e1
  rw [if_pos i1] at e2
  rw [n0] at s2 e1
  rw [n1, s1, s2, t1] at e2
  rw [t0] at e1
  rw [e2, e1]

theorem lattice_far (j : Nat) (hj : j ≠ 16777220) :
    ¬ sq_dist (4 : ℚ) 2048 (lattice.load Buffer.pos j) < 1 := by
  have hne : j % 8192 ≠ 4 ∨ j / 8192 ≠ 2048 := by omega
  have ha : ((j % 8192 : Nat) : ℚ) ≤ 3 ∨ ((j % 8192 : Nat) : ℚ) = 4 ∨
      (5 : ℚ) ≤ ((j % 8192 : Nat) : ℚ) := by
    rcases Nat.lt_trichotomy (j % 8192) 4 with h | h | h
    · exact Or.inl (by exact_mod_cast Nat.lt_succ_iff.1 h)
    · exact Or.inr (Or.inl (by exact_mod_cast h))
    · exact Or.inr (Or.inr (by exact_mod_cast h))
  have hb : ((j / 8192 : Nat) : ℚ) ≤ 2047 ∨ ((j / 8192 : Nat) : ℚ) = 2048 ∨
      (2049 : ℚ) ≤ ((j / 8192 : Nat) : ℚ) := by
    rcases Nat.lt_trichotomy (j / 8192) 2048 with h | h | h
    · exact Or.inl (by exact_mod_cast Nat.lt_succ_iff.1 h)
    · exact Or.inr (Or.inl (by exact_mod_cast h))
    · exact Or.inr (Or.inr (by exact_mod_cast h))
  have hane : ((j % 8192 : Nat) : ℚ) ≠ 4 ∨ ((j / 8192 : Nat) : ℚ) ≠ 2048 := by
    rcases hne with h | h
    · left; exact_mod_cast h
    · right; exact_mod_cast h
  have e : lattice.load Buffer.pos j = ⟨((j % 8192 : Nat) : ℚ), ((j / 8192 : Nat) : ℚ)⟩ := rfl
  rw [e]
  unfold sq_dist
  simp only
  generalize ((j % 8192 : Nat) : ℚ) = a at ha hane ⊢
  generalize ((j / 8192 : Nat) : ℚ) = b at hb hane ⊢
  intro hlt
  have sa : 0 ≤ (4 - a) * (4 - a) := mul_self_nonneg _
  have sb : 0 ≤ (2048 - b) * (2048 - b) := mul_self_nonneg _
  rcases ha with h | h | h
  · have : 1 ≤ (4 - a) * (4 - a) := by nlinarith
    linarith
  · rcases hb with h' | h' | h'
    · have : 1 ≤ (2048 - b) * (2048 - b) := by nlinarith
      linarith
    · rcases hane with k | k
      · exact k h
      · exact k h'
    · have : 1 ≤ (2048 - b) * (2048 - b) := by nlinarith
      linarith
  · have : 1 ≤ (4 - a) * (4 - a) := by nlinarith
    linarith

theorem lattice_speed (v : Vector2 ℚ) :
    new_speed (lattice.load Buffer.pos) lattice.masses 33554441 16777220 v =
      ⟨v.x + -1 / 104858000, v.y + -64 / 13107250⟩ := by
  have hr : lattice.load Buffer.pos 16777220 = ⟨4, 2048⟩ := by
    show (⟨((16777220 % 8192 : Nat) : ℚ), ((16777220 / 8192 : Nat) : ℚ)⟩ : Vector2 ℚ) = ⟨4, 2048⟩
    norm_num
  have hr0 : lattice.load Buffer.pos 0 = ⟨0, 0⟩ := by
    show (⟨((0 % 8192 : Nat) : ℚ), ((0 / 8192 : Nat) : ℚ)⟩ : Vector2 ℚ) = ⟨0, 0⟩
    norm_num
  have hm0 : lattice.masses 0 = 1 := rfl
  unfold new_speed
  rw [new_acc_single_mass _ _ _ _ (by decide) (by decide)
    (fun j hj => by show (if j = 0 then (1 : ℚ) else 0) = 0; rw [if_neg hj])]
  rw [hr, hr0, hm0]
  simp only
  rw [damp_prod_far _ _ _ _ _ lattice_far]
  unfold pair_g sq_dist CONST_G
  norm_num

/-- C5, counterexample.  For `N = 33554441` and `K = 2` the bound
`16777219` of the first interval is stored as the `float` `16777220`, so the
two intervals `[0, 16777220]` and `[16777220, 33554440]` share the body
`16777220`.  On the lattice of bodies at rest, where only body `0` has a mass,
the two workers add the acceleration of that body to its speed twice, and one
call on `[0, N - 1]` adds it once. -/
theorem step_overlap_large :
    (1 ≤ 2 ∧ 2 ≤ 33554441 ∧ 33554441 < 2 ^ 31) ∧
    step_args 33554441 2 Buffer.pos Buffer.pos2 = some [overlap_first, overlap_second] ∧
    (run_workers_entry [overlap_first, overlap_second] lattice).map
        (fun m => m.speed 16777220) =
      some ⟨-1 / 52429000, -64 / 6553625⟩ ∧
    (update_positions_entry overlap_whole lattice).map (fun m => m.speed 16777220) =
      some ⟨-1 / 104858000, -64 / 13107250⟩ := by
  have hv : lattice.speed 16777220 = ⟨0, 0⟩ := rfl
  refine ⟨by decide, by decide!, ?_, ?_⟩
  · have e : run_workers_entry [overlap_first, overlap_second] lattice =
        some (run_workers [overlap_first, overlap_second] lattice) :=
      run_workers_entry_eq _ (by
        intro a ha
        simp only [List.mem_cons, List.mem_singleton, List.not_mem_nil, or_false] at ha
        rcases ha with rfl | rfl <;> exact ⟨by decide, by decide, by decide⟩) lattice
    have k := run_workers_pair_speed overlap_first overlap_second Buffer.pos Buffer.pos2
      (by decide) 33554441 ⟨rfl, rfl, rfl⟩ ⟨rfl, rfl, rfl⟩ lattice 16777220
      (by unfold in_interval; exact ⟨by decide, by decide⟩)
      (by unfold in_interval; exact ⟨by decide, by decide⟩)
    rw [e, Option.map_some', k, lattice_speed, lattice_speed, hv]
    norm_num
  · have e : update_positions_entry overlap_whole lattice =
        some (update_positions overlap_whole lattice) :=
      update_positions_entry_eq _ lattice (by decide) (by decide) (by decide)
    obtain ⟨_, _, _, s4, _⟩ := update_positions_spec overlap_whole (by decide) lattice
    have k := s4 16777220
    rw [if_pos (by unfold in_interval; exact ⟨by decide, by decide⟩)] at k
    have n1 : overlap_whole.new_positions = Buffer.pos := rfl
    have t1 : overlap_whole.total = 33554441 := rfl
    rw [n1, t1, lattice_speed, hv] at k
    rw [e, Option.map_some', k]
    norm_num

theorem exponent_up_spec (fuel : Nat) (x : ℚ) (h1 : 1 ≤ x) (h2 : x < 2 ^ fuel) :
    (2 : ℚ) ^ exponent_up fuel x ≤ x ∧ x < 2 ^ (exponent_up fuel x + 1) := by
  induction fuel generalizing x with
  | zero =>
    rw [pow_zero] at h2
    linarith
  | succ n ih =>
    unfold exponent_up
    by_cases hx : x < 2
    · rw [if_pos hx]
      norm_num
      exact ⟨h1, hx⟩
    · rw [if_neg hx]
      have hx2 : 2 ≤ x := not_lt.1 hx
      obtain ⟨a, b⟩ := ih (x / 2) (by linarith) (by rw [pow_succ] at h2; linarith)
      simp only [zpow_add_one₀ (by norm_num : (2 : ℚ) ≠ 0)] at b ⊢
      constructor
      · linarith
      · linarith

theorem exponent_down_spec (fuel : Nat) (x : ℚ) (h0 : 0 < x) (h1 : x < 2)
    (h2 : 1 ≤ x * 2 ^ fuel) :
    (2 : ℚ) ^ exponent_down fuel x ≤ x ∧ x < 2 ^ (exponent_down fuel x + 1) := by
  induction fuel generalizing x with
  | zero =>
    rw [pow_zero, mul_one] at h2
    unfold exponent_down
    norm_num
    exact ⟨h2, h1⟩
  | succ n ih =>
    unfold exponent_down
    by_cases hx : 1 ≤ x
    · rw [if_pos hx]
      norm_num
      exact ⟨hx, h1⟩
    · rw [if_neg hx]
      have hx1 : x < 1 := not_le.1 hx
      obtain ⟨a, b⟩ := ih (x * 2) (by linarith) (by linarith)
        (by rw [pow_succ] at h2; linarith)
      rw [sub_add_cancel]
      rw [zpow_add_one₀ (by norm_num : (2 : ℚ) ≠ 0)] at b
      rw [zpow_sub_one₀ (by norm_num : (2 : ℚ) ≠ 0)]
      constructor
      · rw [← div_eq_mul_inv]
        linarith
      · linarith

/-- The binary exponent brackets the number: `2 ^ e ≤ |x| < 2 ^ (e + 1)`. -/
theorem exponent_spec (x : ℚ) (hx : x ≠ 0) :
    (2 : ℚ) ^ exponent x ≤ |x| ∧ |x| < 2 ^ (exponent x + 1) := by
  have hden : (0 : ℚ) < x.den := by exact_mod_cast x.den_pos
  have hnum : x.num ≠ 0 := Rat.num_ne_zero.2 hx
  have habs : |x| = (x.num.natAbs : ℚ) / x.den := by
    conv_lhs => rw [← Rat.num_div_den x]
    rw [abs_div, abs_of_pos hden, Nat.cast_natAbs, Int.cast_abs]
  have hn1 : (1 : ℚ) ≤ x.num.natAbs := by
    exact_mod_cast Nat.one_le_iff_ne_zero.2 (Int.natAbs_ne_zero.2 hnum)
  have hd1 : (1 : ℚ) ≤ x.den := by exact_mod_cast x.den_pos
  unfold exponent
  by_cases h : 1 ≤ |x|
  · rw [if_pos h]
    apply exponent_up_spec _ _ h
    have : (x.num.natAbs : ℚ) < 2 ^ x.num.natAbs := by
      exact_mod_cast Nat.lt_two_pow x.num.natAbs
    rw [habs]
    calc (x.num.natAbs : ℚ) / x.den ≤ x.num.natAbs := div_le_self (by linarith) hd1
      _ < 2 ^ x.num.natAbs := this
  · rw [if_neg h]
    have hpos : 0 < |x| := abs_pos.2 hx
    apply exponent_down_spec _ _ hpos (by linarith [not_le.1 h])
    have : (x.den : ℚ) < 2 ^ x.den := by exact_mod_cast Nat.lt_two_pow x.den
    rw [habs, div_mul_eq_mul_div, le_div_iff₀ hden]
    nlinarith

/-- The nearest integer is within `1/2`. -/
theorem round_half_even_spec (x : ℚ) : |(round_half_even x : ℚ) - x| ≤ 1 / 2 := by
  have h1 := Int.floor_le x
  have h2 := Int.lt_floor_add_one x
  unfold round_half_even
  split_ifs with a b c
  · rw [abs_le]; constructor <;> linarith
  · rw [abs_le]; push_cast; constructor <;> linarith
  · rw [abs_le]; constructor <;> linarith
  · rw [abs_le]; push_cast; constructor <;> linarith

/-- The rounding of `x ≠ 0` to `p` significant bits is a multiple of the unit
in the last place `2 ^ (e - (p - 1))`, where `e` is the exponent of `x` (or
`emin` if that is larger), and is within half a unit of `x`. -/
theorem float_round_spec (p : Nat) (emin : Int) (x : ℚ) (hx : x ≠ 0) :
    ∃ n : Int,
      float_round p emin x = n * 2 ^ (max (exponent x) emin - ((p : Int) - 1)) ∧
      |float_round p emin x - x| ≤ 2 ^ (max (exponent x) emin - ((p : Int) - 1)) / 2 := by
  have hq : (0 : ℚ) < 2 ^ (max (exponent x) emin - ((p : Int) - 1)) :=
    zpow_pos (by norm_num) _
  unfold float_round
  rw [if_neg hx]
  refine ⟨_, rfl, ?_⟩
  simp only
  generalize (2 : ℚ) ^ (max (exponent x) emin - ((p : Int) - 1)) = q at hq ⊢
  have h := round_half_even_spec (x / q)
  have e : (round_half_even (x / q) : ℚ) * q - x = ((round_half_even (x / q) : ℚ) - x / q) * q := by
    field_simp
  rw [e, abs_mul, abs_of_pos hq]
  nlinarith [abs_nonneg ((round_half_even (x / q) : ℚ) - x / q)]

/-- The two roundings to 24 significant bits, `float_of_nat` on natural numbers
and `float32` on rationals, give the same `float` at the bounds used below. -/
theorem float32_float_of_nat :
    float32 16777219 = (float_of_nat 16777219 : ℚ) ∧
    float32 16777217 = (float_of_nat 16777217 : ℚ) ∧
    float32 33554439 = (float_of_nat 33554439 : ℚ) ∧
    float32 18446744073709551615 = (float_of_nat 18446744073709551615 : ℚ) ∧
    float32 2000 = (float_of_nat 2000 : ℚ) := by
  refine ⟨by decide!, by decide!, by decide!, by decide!, by decide!⟩

end NBody
